/-
  Verification development for the flowbit-memory-agent repository
  (TypeScript, invoice memory engine).

  The four-stage pipeline recall → apply → decide → learn is embedded
  shallowly:

  * JS numbers are modelled as `ℚ` (all arithmetic in the engine is
    addition/subtraction/min/max/division by constants, so rationals are
    exact; two-decimal rounding `Number(x.toFixed(2))` is modelled by
    `round2`).
  * `Date` values are modelled as `Int` epoch milliseconds.
    `Date.prototype.toISOString` / `new Date(string)` (pure formatting
    helpers, out of scope per the spec) are modelled by the injective
    encoding `isoString` / `parseDateMs` which round-trip.
  * The JSON blob stored in `Memory.content` is modelled structurally:
    `MemContent.obj` holds the partial learned-content record (the only
    shape the engine ever serializes), `MemContent.raw` stands for any
    other stored string (foreign/legacy content); `JSON.parse ∘
    JSON.stringify` is the identity on structured payloads.
  * The SQLite-backed repository (memoryRepository.ts) is modelled as a
    `List Memory`: `saveMemory` is the keyed upsert, `getMemoryById` the
    keyed lookup, and `searchMemories` the case-insensitive substring
    search (`content LIKE '%q%'`) over the serialized content.
  * Mutation is modelled by explicit state passing.  The one aliasing
    effect in the source — `applyMemoriesToContext` shallow-copies the
    invoice but shares (and mutates) its `lineItems` array — is captured
    by `callerInvoiceAfterApply`.
-/
import Mathlib

/- Batteries seals the arithmetic on `Rat` behind `@[irreducible]`;
re-open it locally so that concrete pipeline runs evaluate by `decide`. -/
attribute [local semireducible] Rat.add Rat.sub Rat.mul Rat.inv Rat.ofScientific

/-! ### JSON-style runtime values -/

/-- A JavaScript runtime value as it occurs in the engine's dynamic
positions (`unknown`-typed fields, `metadata` entries, values written
through `as any` casts). -/
inductive JVal where
  | str (s : String)
  | num (q : ℚ)
  | bool (b : Bool)
  | null
deriving DecidableEq, Repr

/-- JS truthiness for the values the engine tests with `if (v)`. -/
def JVal.truthy : JVal → Bool
  | .str s => !s.isEmpty
  | .num q => decide (q ≠ 0)
  | .bool b => b
  | .null => false

/-- JS `v !== undefined && v !== null` on an optional slot. -/
def presentNonNull : Option JVal → Bool
  | none => false
  | some .null => false
  | some _ => true

/-! ### Data model (src/models/memory.ts, src/models/pipeline.ts) -/

inductive MemoryKind where
  | ephemeral | long_term | system
deriving DecidableEq, Repr

inductive LearnedMemoryCategory where
  | vendor | correction | resolution | duplicate
deriving DecidableEq, Repr

inductive ResolutionStatus where
  | approved | rejected
deriving DecidableEq, Repr

/-- The `metadata` record of a learned memory; only the keys the engine
ever reads or writes are modelled. -/
structure Metadata where
  field : Option String := none
  value : Option JVal := none
  proposedValue : Option JVal := none
  isDuplicate : Option Bool := none
  source : Option String := none
deriving DecidableEq, Repr

/-- `Partial<LearnedMemoryContent>`: the shape actually serialized into
`Memory.content` (every writer in learn.ts builds a partial record, and
every reader treats all fields as possibly missing). -/
structure ContentBlob where
  category : Option LearnedMemoryCategory := none
  vendorName : Option String := none
  invoiceNumber : Option String := none
  invoiceDate : Option String := none
  field : Option String := none
  pattern : Option String := none
  resolutionStatus : Option ResolutionStatus := none
  confidence : Option ℚ := none
  usageCount : Option ℚ := none
  metadata : Option Metadata := none
deriving DecidableEq, Repr

/-- A stored `Memory.content` string: either the serialization of a
structured payload, or any other (foreign / unparseable) string. -/
inductive MemContent where
  | obj (c : ContentBlob)
  | raw (s : String)
deriving DecidableEq, Repr

structure Memory where
  id : String
  kind : MemoryKind
  content : MemContent
  createdAt : Int
  updatedAt : Int
  source : Option String := none
deriving DecidableEq, Repr

/-- `LearnedMemoryContent` as recall uses it after a successful parse:
`category`, `confidence` and `usageCount` are known to be present. -/
structure LearnedMemoryContent where
  category : LearnedMemoryCategory
  vendorName : Option String := none
  invoiceNumber : Option String := none
  invoiceDate : Option String := none
  field : Option String := none
  pattern : Option String := none
  resolutionStatus : Option ResolutionStatus := none
  confidence : ℚ
  usageCount : ℚ
  metadata : Option Metadata := none
deriving DecidableEq, Repr

structure InvoiceLineItem where
  id : String
  description : String
  quantity : ℚ
  unitPrice : ℚ
  /-- Not declared in `InvoiceLineItem`; written dynamically by apply
  through `(item as any).sku = proposedSku`. -/
  sku : Option JVal := none
deriving DecidableEq, Repr

structure NormalizedInvoice where
  id : String
  externalId : Option String := none
  customerName : String
  /-- `string` in the source type, but apply writes the (dynamically
  typed) candidate currency through an `as any` cast. -/
  currency : JVal
  totalAmount : ℚ
  issuedAt : Int
  dueAt : Option Int := none
  lineItems : List InvoiceLineItem
  vendorName : String
  invoiceNumber : String
  rawText : Option String := none
  /-- `Date | undefined` in the source type, but apply writes the raw
  `metadata.proposedValue` through an `as any` cast. -/
  serviceDate : Option JVal := none
  taxAmount : Option ℚ := none
  grossAmount : Option ℚ := none
  paymentTermsNormalized : Option String := none
deriving DecidableEq, Repr

structure ProposedCorrection where
  field : String
  proposedValue : JVal
  reason : String
  confidence : ℚ
  memoryId : Option String := none
  applied : Bool
deriving DecidableEq, Repr

inductive MemoryUpdateAction where
  | reinforce | decay | create
deriving DecidableEq, Repr

structure MemoryUpdate where
  memoryId : String
  previousConfidence : ℚ
  newConfidence : ℚ
  usageCount : ℚ
  action : MemoryUpdateAction
deriving DecidableEq, Repr

/-! ### String / date helpers (models of JS stdlib operations,
implemented by structural recursion over `List Char` so that concrete
runs evaluate inside the kernel) -/

/-- JS `String.prototype.toLowerCase` (the engine only lowercases ASCII
text). -/
def lowerStr (s : String) : String := String.mk (s.data.map Char.toLower)

/-- JS `String.prototype.toUpperCase`. -/
def upperStr (s : String) : String := String.mk (s.data.map Char.toUpper)

def charsStartWith : List Char → List Char → Bool
  | _, [] => true
  | [], _ :: _ => false
  | a :: s, b :: p => a = b && charsStartWith s p

def charsContains (pat : List Char) : List Char → Bool
  | [] => charsStartWith [] pat
  | a :: rest => charsStartWith (a :: rest) pat || charsContains pat rest

/-- JS `haystack.includes(needle)` (also the core of SQL `LIKE '%q%'`):
case-sensitive substring containment. -/
def strContains (s pat : String) : Bool := charsContains pat.data s.data

/-- JS `s.startsWith(pat)`. -/
def strStartsWith (s pat : String) : Bool := charsStartWith s.data pat.data

/-- JS `s.endsWith(pat)`. -/
def strEndsWith (s pat : String) : Bool :=
  charsStartWith s.data.reverse pat.data.reverse

def digitsToNat : Nat → List Char → Option Nat
  | acc, [] => some acc
  | acc, c :: rest =>
    if c.isDigit then digitsToNat (acc * 10 + (c.toNat - 48)) rest else none

/-- Model of `Date.prototype.toISOString` on an epoch-millisecond value:
an injective textual encoding (the engine only ever round-trips these
strings through `new Date(...)`). -/
def isoString (t : Int) : String := "@" ++ toString t

/-- Model of `new Date(string).getTime()`: recovers the encoded epoch
milliseconds, `none` standing for an Invalid Date (`NaN`). -/
def parseDateMs (s : String) : Option Int :=
  match s.data with
  | '@' :: '-' :: d :: ds => (digitsToNat 0 (d :: ds)).map (fun n => -(n : Int))
  | '@' :: d :: ds => (digitsToNat 0 (d :: ds)).map (fun n => (n : Int))
  | _ => none

/-! ### Serialization (model of `JSON.stringify` on the engine's payloads)

Only substring search (`content LIKE '%query%'`) ever looks at the
serialized text, so the model renders the payload as a JSON-like object
string; strings are rendered unescaped (no engine-written string
contains a quote or backslash) and numbers by their `ℚ` representation. -/

def jsonStr (s : String) : String := "\"" ++ s ++ "\""

def jsonEntry (name : String) (v : Option String) : List String :=
  match v with
  | none => []
  | some s => [jsonStr name ++ ":" ++ s]

def LearnedMemoryCategory.toText : LearnedMemoryCategory → String
  | .vendor => "vendor"
  | .correction => "correction"
  | .resolution => "resolution"
  | .duplicate => "duplicate"

def ResolutionStatus.toText : ResolutionStatus → String
  | .approved => "approved"
  | .rejected => "rejected"

def JVal.serialize : JVal → String
  | .str s => jsonStr s
  | .num q => toString q
  | .bool b => toString b
  | .null => "null"

def Metadata.serialize (m : Metadata) : String :=
  "\x7b" ++ String.intercalate ","
    (jsonEntry "field" (m.field.map jsonStr) ++
     jsonEntry "value" (m.value.map JVal.serialize) ++
     jsonEntry "proposedValue" (m.proposedValue.map JVal.serialize) ++
     jsonEntry "isDuplicate" (m.isDuplicate.map toString) ++
     jsonEntry "source" (m.source.map jsonStr)) ++ "\x7d"

def ContentBlob.serialize (c : ContentBlob) : String :=
  "\x7b" ++ String.intercalate ","
    (jsonEntry "category" (c.category.map (fun x => jsonStr x.toText)) ++
     jsonEntry "confidence" (c.confidence.map toString) ++
     jsonEntry "usageCount" (c.usageCount.map toString) ++
     jsonEntry "metadata" (c.metadata.map Metadata.serialize) ++
     jsonEntry "field" (c.field.map jsonStr) ++
     jsonEntry "vendorName" (c.vendorName.map jsonStr) ++
     jsonEntry "invoiceNumber" (c.invoiceNumber.map jsonStr) ++
     jsonEntry "invoiceDate" (c.invoiceDate.map jsonStr) ++
     jsonEntry "resolutionStatus" (c.resolutionStatus.map (fun x => jsonStr x.toText)) ++
     jsonEntry "pattern" (c.pattern.map jsonStr)) ++ "\x7d"

def serializeContent : MemContent → String
  | .obj c => c.serialize
  | .raw s => s

/-! ### Memory repository (memoryRepository.ts, modelled over `List Memory`) -/

/-- `saveMemory`: idempotent upsert keyed by id (SQLite
`INSERT ... ON CONFLICT(id) DO UPDATE`); an existing row keeps its
position, a new row is appended. -/
def saveMemory : List Memory → Memory → List Memory
  | [], m => [m]
  | x :: rest, m => if x.id = m.id then m :: rest else x :: saveMemory rest m

/-- `getMemoryById`: keyed lookup. -/
def getMemoryById (repo : List Memory) (id : String) : Option Memory :=
  repo.find? (fun m => m.id = id)

/-- `searchMemories`: `SELECT ... WHERE content LIKE '%query%' LIMIT ?`.
SQLite `LIKE` is ASCII case-insensitive, hence the `toLower` on both
sides. -/
def searchMemories (repo : List Memory) (query : String) (limit : Nat := 10) : List Memory :=
  (repo.filter (fun m => strContains (lowerStr (serializeContent m.content)) (lowerStr query))).take limit

/-! ### Recall-side ephemeral types (recall.ts) -/

structure ScoredLearnedMemory where
  memory : Memory
  content : LearnedMemoryContent
  score : ℚ
deriving DecidableEq, Repr

structure RecallSummary where
  vendorMemories : List ScoredLearnedMemory
  correctionMemories : List ScoredLearnedMemory
  resolutionMemories : List ScoredLearnedMemory
  duplicateDetected : Bool
  duplicateScore : ℚ
  duplicateReason : Option String := none
  allMemories : List ScoredLearnedMemory
deriving DecidableEq, Repr

structure RecallQuery where
  vendorName : String
  invoiceNumber : String
  invoiceDate : Int
  rawText : Option String := none
  limit : Option Nat := none
deriving DecidableEq, Repr

/-- recall.ts `parseLearnedContent`: the payload is usable only when
`confidence` and `usageCount` are numbers and `category` is present
(non-JSON / foreign content is silently excluded). -/
def parseLearnedContent (memory : Memory) : Option LearnedMemoryContent :=
  match memory.content with
  | .raw _ => none
  | .obj c =>
    match c.confidence, c.usageCount, c.category with
    | some confidence, some usageCount, some category =>
      some { category := category, vendorName := c.vendorName,
             invoiceNumber := c.invoiceNumber, invoiceDate := c.invoiceDate,
             field := c.field, pattern := c.pattern,
             resolutionStatus := c.resolutionStatus,
             confidence := confidence, usageCount := usageCount,
             metadata := c.metadata }
    | _, _, _ => none

/-- recall.ts `scoreMemory`: confidence plus +0.05 bonuses for vendor
match (case-insensitive, on a truthy stored name), exact invoice-number
match (on a truthy stored number) and invoice date within 2 days,
clamped from above at 1. -/
def scoreMemory (content : LearnedMemoryContent) (vendorName invoiceNumber : String)
    (invoiceDate : Int) : ℚ :=
  let score0 := content.confidence
  let score1 :=
    if (match content.vendorName with
        | some v => !v.isEmpty && (lowerStr v = lowerStr vendorName : Bool)
        | none => false) then score0 + 0.05 else score0
  let score2 :=
    if (match content.invoiceNumber with
        | some n => !n.isEmpty && (n = invoiceNumber : Bool)
        | none => false) then score1 + 0.05 else score1
  let score3 :=
    if (match content.invoiceDate with
        | some d =>
          !d.isEmpty &&
          (match parseDateMs d with
           | some t =>
             decide ((|(t : ℚ) - (invoiceDate : ℚ)| / (1000 * 60 * 60 * 24)) ≤ 2)
           | none => false)
        | none => false) then score2 + 0.05 else score2
  min score3 1

/-- The descending-score ordering used by recall's
`.sort((a, b) => b.score - a.score)`. -/
def scoreGE (a b : ScoredLearnedMemory) : Prop := b.score ≤ a.score

instance : DecidableRel scoreGE := fun a b => inferInstanceAs (Decidable (b.score ≤ a.score))

instance : IsTotal ScoredLearnedMemory scoreGE := ⟨fun a b => le_total b.score a.score⟩

instance : IsTrans ScoredLearnedMemory scoreGE := ⟨fun _ _ _ h1 h2 => le_trans h2 h1⟩

/-- recall.ts `filterByCategory`: filter by category, then sort
descending by score.  JS `Array.prototype.sort` is a stable sort, so it
is modelled by the stable `List.insertionSort` under `scoreGE`. -/
def filterByCategory (memories : List ScoredLearnedMemory)
    (category : LearnedMemoryCategory) : List ScoredLearnedMemory :=
  List.insertionSort scoreGE
    (memories.filter (fun m => m.content.category = category))

/-- The `Map`-based union in `recallMemories`: de-duplicate by id,
keeping first-insertion order (the repository is keyed by id, so two
hits with the same id are the same row). -/
def dedupByIdAux (seen : List String) : List Memory → List Memory
  | [] => []
  | m :: rest =>
    if m.id ∈ seen then dedupByIdAux seen rest
    else m :: dedupByIdAux (m.id :: seen) rest

def dedupById (ms : List Memory) : List Memory := dedupByIdAux [] ms

def duplicateReasonText : String :=
  "Potential duplicate invoice based on vendor, invoice number and close invoice date."

/-- recall.ts `recallMemories`, steps 1-3 (lines 81-96): the two
substring searches, the `Map`-union by id, and the parse-and-score loop
(parse failures are skipped). -/
def scoredMemories (repo : List Memory) (query : RecallQuery) : List ScoredLearnedMemory :=
  let limit := query.limit.getD 50
  let byVendor := searchMemories repo query.vendorName limit
  let byInvoiceNumber := searchMemories repo query.invoiceNumber limit
  let combined := dedupById (byVendor ++ byInvoiceNumber)
  combined.filterMap (fun memory =>
    (parseLearnedContent memory).map (fun content =>
      { memory := memory, content := content,
        score := scoreMemory content query.vendorName query.invoiceNumber query.invoiceDate }))

/-- The duplicate-candidate predicate of recall.ts lines 106-110:
case-insensitive vendor match (via optional chaining), exact invoice
number equality, and a truthy stored invoice date. -/
def isDuplicateCandidate (query : RecallQuery) (m : ScoredLearnedMemory) : Bool :=
  (match m.content.vendorName with
   | some v => (lowerStr v = lowerStr query.vendorName : Bool)
   | none => false) &&
  decide (m.content.invoiceNumber = some query.invoiceNumber) &&
  (match m.content.invoiceDate with
   | some d => !d.isEmpty
   | none => false)

/-- recall.ts `recallMemories` (lines 77-129): search + score, partition
by category, duplicate detection over resolution memories. -/
def recallMemories (repo : List Memory) (query : RecallQuery) : RecallSummary :=
  let scored := scoredMemories repo query
  let vendorMemories := filterByCategory scored .vendor
  let correctionMemories := filterByCategory scored .correction
  let resolutionMemories := filterByCategory scored .resolution
  let duplicateCandidates := resolutionMemories.filter (isDuplicateCandidate query)
  match duplicateCandidates with
  | [] =>
    { vendorMemories := vendorMemories, correctionMemories := correctionMemories,
      resolutionMemories := resolutionMemories, duplicateDetected := false,
      duplicateScore := 0, duplicateReason := none, allMemories := scored }
  | best :: _ =>
    { vendorMemories := vendorMemories, correctionMemories := correctionMemories,
      resolutionMemories := resolutionMemories, duplicateDetected := true,
      duplicateScore := best.score, duplicateReason := some duplicateReasonText,
      allMemories := scored }

/-! ### Apply-side types (apply.ts) -/

structure ApplyInputContext where
  invoice : NormalizedInvoice
  rawText : String
  /-- Source field name `recall` (here `recallSummary`, since `recall`
  is a Mathlib command keyword). -/
  recallSummary : RecallSummary
deriving DecidableEq, Repr

structure AppliedMemoryRecord where
  field : String
  memoryId : String
  confidence : ℚ
  applied : Bool
  reason : String
deriving DecidableEq, Repr

structure ApplyContext where
  input : ApplyInputContext
  memories : List Memory
  normalizedInvoice : NormalizedInvoice
  proposedCorrections : List ProposedCorrection
  appliedMemories : List AppliedMemoryRecord
  aggregateConfidence : ℚ
deriving DecidableEq, Repr

/-! ### Apply (apply.ts) -/

def HIGH_CONFIDENCE_THRESHOLD : ℚ := 0.8

def MEDIUM_CONFIDENCE_THRESHOLD : ℚ := 0.7

/-- JS `a ?? b` (nullish coalescing) on an optional dynamic value. -/
def jsCoalesce (o : Option JVal) (d : JVal) : JVal :=
  match o with
  | none => d
  | some .null => d
  | some v => v

/-- `Number(x.toFixed(2))`: rounding to two decimals (exact on the
rational model). -/
def round2 (q : ℚ) : ℚ := (round (q * 100) : ℤ) / 100

/-- apply.ts `registerCorrection`: builds the correction record; the
`list.push` is modelled by appending at each call site. -/
def registerCorrection (field : String) (proposedValue : JVal) (reason : String)
    (confidence : ℚ) (memory : Option ScoredLearnedMemory) (applied : Bool) :
    ProposedCorrection :=
  { field := field, proposedValue := proposedValue, reason := reason,
    confidence := confidence, memoryId := memory.map (fun m => m.memory.id),
    applied := applied }

/-- The running state of `applyMemoriesToContext`: the working invoice
copy plus the three accumulators. -/
structure HeurOut where
  invoice : NormalizedInvoice
  corrections : List ProposedCorrection
  applied : List AppliedMemoryRecord
  aggregate : ℚ
deriving DecidableEq, Repr

/-- apply.ts `maybeApplyFieldFromMemory` (generic over the field; its
single instantiation is `serviceDate`): returns the additions plus the
value the invoice field holds after the call. -/
def maybeApplyFieldFromMemory (field : String) (currentValue : Option JVal)
    (memories : List ScoredLearnedMemory) :
    List ProposedCorrection × List AppliedMemoryRecord × Option JVal × ℚ :=
  if presentNonNull currentValue then ([], [], currentValue, 0)
  else
    match memories.find? (fun m => m.content.field = some field) with
    | none => ([], [], currentValue, 0)
    | some candidate =>
      let confidence := candidate.content.confidence
      let reason := "Field " ++ field ++ " inferred from learned vendor memory for " ++
        candidate.content.vendorName.getD "unknown vendor" ++ "."
      if HIGH_CONFIDENCE_THRESHOLD ≤ confidence then
        match candidate.content.metadata.bind (fun md => md.proposedValue) with
        | some proposedValue =>
          ([registerCorrection field proposedValue reason confidence (some candidate) true],
           [{ field := field, memoryId := candidate.memory.id, confidence := confidence,
              applied := true, reason := reason }],
           some proposedValue, confidence)
        | none => ([], [], currentValue, 0)
      else if MEDIUM_CONFIDENCE_THRESHOLD ≤ confidence then
        match candidate.content.metadata.bind (fun md => md.proposedValue) with
        | some proposedValue =>
          ([registerCorrection field proposedValue reason confidence (some candidate) false],
           [{ field := field, memoryId := candidate.memory.id, confidence := confidence,
              applied := false, reason := reason }],
           currentValue, confidence)
        | none => ([], [], currentValue, 0)
      else ([], [], currentValue, 0)

/-- apply.ts `detectVatIncluded`. -/
def detectVatIncluded (rawText : String) : Bool :=
  let text := lowerStr rawText
  strContains text "mwst. inkl" ||
  strContains text "mwst inkl" ||
  strContains text "inkl. mwst" ||
  strContains text "inkl mwst" ||
  strContains text "prices incl. vat" ||
  strContains text "price includes vat"

/-- apply.ts `normalizeCurrencyFromText`. -/
def normalizeCurrencyFromText (rawText : String) : Option String :=
  let text := upperStr rawText
  if strContains text " EUR" || strContains text "€" then some "EUR"
  else if strContains text " USD" || strContains text "$" then some "USD"
  else if strContains text " CHF" then some "CHF"
  else if strContains text " GBP" || strContains text "£" then some "GBP"
  else none

/-- First character index of `pat` inside `s` (JS `indexOf`; character
positions coincide with UTF-16 positions on the ASCII text involved). -/
def charIdxOfAux (pat : List Char) : List Char → Nat → Option Nat
  | [], i => if charsStartWith [] pat then some i else none
  | a :: rest, i =>
    if charsStartWith (a :: rest) pat then some i
    else charIdxOfAux pat rest (i + 1)

def charIdxOf (s pat : String) : Option Nat := charIdxOfAux pat.data s.data 0

/-- First match of the regex `(\d{1,2})%` in a character window,
returning the captured digits: at each position a greedy 1-2 digit run
must be followed directly by `%`, else the scan advances one
character. -/
def scanPercent : List Char → Option String
  | [] => none
  | a :: rest =>
    if a.isDigit then
      match rest with
      | b :: c :: _ =>
        if b.isDigit && c = '%' then some (String.mk [a, b])
        else if b = '%' then some (String.mk [a])
        else scanPercent rest
      | [b] => if b = '%' then some (String.mk [a]) else scanPercent rest
      | [] => none
    else scanPercent rest

/-- apply.ts `detectSkontoTerms`: literal search for "skonto", then a
percentage extracted from a −40/+80 character window. -/
def detectSkontoTerms (rawText : String) : Option String :=
  let text := lowerStr rawText
  match charIdxOf text "skonto" with
  | none => none
  | some skontoIndex =>
    let start := skontoIndex - 40
    let window := (text.data.drop start).take (skontoIndex + 80 - start)
    match scanPercent window with
    | some percentage => some (percentage ++ "% skonto detected")
    | none => some "Skonto terms detected"

/-- apply.ts lines 347-359: missing-`serviceDate` fill from vendor
memory. -/
def serviceDateBlock (input : ApplyInputContext) (st : HeurOut) : HeurOut :=
  let vendorServiceMemories := input.recallSummary.vendorMemories.filter
    (fun m => m.content.field = some "serviceDate")
  let r := maybeApplyFieldFromMemory "serviceDate" st.invoice.serviceDate vendorServiceMemories
  { invoice := { st.invoice with serviceDate := r.2.2.1 }
    corrections := st.corrections ++ r.1
    applied := st.applied ++ r.2.1
    aggregate := max st.aggregate r.2.2.2 }

/-- apply.ts lines 361-409: VAT-included detection and tax
recomputation. -/
def vatBlock (input : ApplyInputContext) (st : HeurOut) : HeurOut :=
  if detectVatIncluded input.rawText then
    let vatMem := input.recallSummary.vendorMemories.find?
      (fun m => m.content.field = some "vatIncluded")
    let baseConfidence := (vatMem.map (fun m => m.content.confidence)).getD 0.75
    let reason := "VAT inclusion inferred from raw text phrases such as \"MwSt. inkl.\" or \"Prices incl. VAT\"."
    if HIGH_CONFIDENCE_THRESHOLD ≤ baseConfidence then
      let gross := st.invoice.totalAmount
      let net := gross / 1.19
      let taxAmount := gross - net
      let invoiceV := { st.invoice with
        taxAmount := some (round2 taxAmount)
        grossAmount := some (round2 gross) }
      { invoice := invoiceV
        corrections := st.corrections ++
          [registerCorrection "taxAmount" (.num (round2 taxAmount)) reason baseConfidence vatMem true]
        applied := st.applied ++
          [{ field := "taxAmount",
             memoryId := (vatMem.map (fun m => m.memory.id)).getD "synthetic-vat-rule",
             confidence := baseConfidence, applied := true, reason := reason }]
        aggregate := max st.aggregate baseConfidence }
    else if MEDIUM_CONFIDENCE_THRESHOLD ≤ baseConfidence then
      let gross := st.invoice.totalAmount
      let net := gross / 1.19
      let taxAmount := gross - net
      { invoice := st.invoice
        corrections := st.corrections ++
          [registerCorrection "taxAmount" (.num (round2 taxAmount)) reason baseConfidence vatMem false]
        applied := st.applied
        aggregate := max st.aggregate baseConfidence }
    else st
  else st

/-- apply.ts lines 411-456: currency inference (only when the working
invoice's currency is falsy). -/
def currencyBlock (input : ApplyInputContext) (st : HeurOut) : HeurOut :=
  if !st.invoice.currency.truthy then
    let currencyFromText := normalizeCurrencyFromText input.rawText
    let currencyMem := input.recallSummary.vendorMemories.find?
      (fun m => m.content.field = some "currency")
    let baseConfidence := (currencyMem.map (fun m => m.content.confidence)).getD 0.7
    let candidateCurrency : Option JVal :=
      match currencyFromText with
      | some s => some (.str s)
      | none => currencyMem.bind (fun m => m.content.metadata.bind (fun md => md.proposedValue))
    match candidateCurrency with
    | some cand =>
      if cand.truthy then
        let reason := "Currency inferred from raw text and vendor-specific memory."
        if HIGH_CONFIDENCE_THRESHOLD ≤ baseConfidence then
          { invoice := { st.invoice with currency := cand }
            corrections := st.corrections ++
              [registerCorrection "currency" cand reason baseConfidence currencyMem true]
            applied := st.applied ++
              (match currencyMem with
               | some cm =>
                 [{ field := "currency", memoryId := cm.memory.id,
                    confidence := baseConfidence, applied := true, reason := reason }]
               | none => [])
            aggregate := max st.aggregate baseConfidence }
        else if MEDIUM_CONFIDENCE_THRESHOLD ≤ baseConfidence then
          { invoice := st.invoice
            corrections := st.corrections ++
              [registerCorrection "currency" cand reason baseConfidence currencyMem false]
            applied := st.applied
            aggregate := max st.aggregate baseConfidence }
        else st
      else st
    | none => st
  else st

/-- One iteration of apply.ts's freight loop (lines 458-506); the item
list accumulator rebuilds the (shared, mutated-in-place) `lineItems`
array. -/
def freightStep (input : ApplyInputContext)
    (acc : List InvoiceLineItem × List ProposedCorrection × List AppliedMemoryRecord × ℚ)
    (item : InvoiceLineItem) :
    List InvoiceLineItem × List ProposedCorrection × List AppliedMemoryRecord × ℚ :=
  let (items, cors, apps, agg) := acc
  let description := lowerStr item.description
  let looksLikeFreight :=
    strContains description "seefracht" || strContains description "shipping" ||
    strContains description "fracht" || strContains description "freight"
  if !looksLikeFreight then (items ++ [item], cors, apps, agg)
  else
    let freightMem := input.recallSummary.vendorMemories.find?
      (fun m => m.content.field = some "freightSku")
    let baseConfidence := (freightMem.map (fun m => m.content.confidence)).getD 0.75
    let proposedSku : JVal :=
      jsCoalesce (freightMem.bind (fun m => m.content.metadata.bind (fun md => md.proposedValue)))
        (.str "FREIGHT")
    let reason := "Freight-related description mapped to freight SKU based on learned vendor memory."
    if HIGH_CONFIDENCE_THRESHOLD ≤ baseConfidence then
      (items ++ [{ item with sku := some proposedSku }],
       cors ++ [registerCorrection ("lineItem:" ++ item.id ++ ":sku") proposedSku reason
         baseConfidence freightMem true],
       apps ++ [{ field := "lineItem:" ++ item.id ++ ":sku",
                  memoryId := (freightMem.map (fun m => m.memory.id)).getD "synthetic-freight-rule",
                  confidence := baseConfidence, applied := true, reason := reason }],
       max agg baseConfidence)
    else if MEDIUM_CONFIDENCE_THRESHOLD ≤ baseConfidence then
      (items ++ [item],
       cors ++ [registerCorrection ("lineItem:" ++ item.id ++ ":sku") proposedSku reason
         baseConfidence freightMem false],
       apps, max agg baseConfidence)
    else (items ++ [item], cors, apps, agg)

/-- apply.ts lines 458-506: the freight-SKU loop over the line items. -/
def freightBlock (input : ApplyInputContext) (st : HeurOut) : HeurOut :=
  let r := st.invoice.lineItems.foldl (freightStep input)
    ([], st.corrections, st.applied, st.aggregate)
  { invoice := { st.invoice with lineItems := r.1 }
    corrections := r.2.1
    applied := r.2.2.1
    aggregate := r.2.2.2 }

/-- apply.ts lines 508-545: skonto terms. -/
def skontoBlock (input : ApplyInputContext) (st : HeurOut) : HeurOut :=
  match detectSkontoTerms input.rawText with
  | none => st
  | some skonto =>
    let skontoMem := input.recallSummary.vendorMemories.find?
      (fun m => m.content.field = some "skonto")
    let baseConfidence := (skontoMem.map (fun m => m.content.confidence)).getD 0.75
    let reason := "Skonto (cash discount) terms detected in raw text."
    if HIGH_CONFIDENCE_THRESHOLD ≤ baseConfidence then
      { invoice := { st.invoice with paymentTermsNormalized := some skonto }
        corrections := st.corrections ++
          [registerCorrection "paymentTermsNormalized" (.str skonto) reason baseConfidence
            skontoMem true]
        applied := st.applied ++
          [{ field := "paymentTermsNormalized",
             memoryId := (skontoMem.map (fun m => m.memory.id)).getD "synthetic-skonto-rule",
             confidence := baseConfidence, applied := true, reason := reason }]
        aggregate := max st.aggregate baseConfidence }
    else if MEDIUM_CONFIDENCE_THRESHOLD ≤ baseConfidence then
      { invoice := st.invoice
        corrections := st.corrections ++
          [registerCorrection "paymentTermsNormalized" (.str skonto) reason baseConfidence
            skontoMem false]
        applied := st.applied
        aggregate := max st.aggregate baseConfidence }
    else st

/-- apply.ts `applyMemoriesToContext` (lines 341-555): the five
heuristic blocks run in sequence over the shallow invoice copy. -/
def applyMemoriesToContext (input : ApplyInputContext) : ApplyContext :=
  let st0 : HeurOut :=
    { invoice := input.invoice, corrections := [], applied := [], aggregate := 0 }
  let st := skontoBlock input (freightBlock input (currencyBlock input
    (vatBlock input (serviceDateBlock input st0))))
  { input := input
    memories := input.recallSummary.allMemories.map (fun m => m.memory)
    normalizedInvoice := st.invoice
    proposedCorrections := st.corrections
    appliedMemories := st.applied
    aggregateConfidence := st.aggregate }

/-- The caller's invoice object as observed after `applyMemoriesToContext`
returns.  The source shallow-copies the invoice (`{ ...input.invoice }`),
so top-level scalar writes stay on the copy — but `lineItems` is the
same array object, and the freight heuristic writes `(item as any).sku`
on its elements in place, so the caller sees the updated line items. -/
def callerInvoiceAfterApply (input : ApplyInputContext) : NormalizedInvoice :=
  { input.invoice with
    lineItems := (applyMemoriesToContext input).normalizedInvoice.lineItems }

/-! ### Decide (decide.ts) -/

structure Decision where
  requiresHumanReview : Bool
  confidenceScore : ℚ
  reasoning : String
deriving DecidableEq, Repr

/-- decide.ts, `decideNextAction` (lines 9-58 of the module): the four
sequential `if` statements act on a `requiresHumanReview` variable
initialized to `true`; each rewrite of the variable is modelled by a
fresh `let`. -/
def decideNextAction (context : ApplyContext) : Decision :=
  let hasDuplicate := context.input.recallSummary.duplicateDetected
  let highConfidenceApplied := context.appliedMemories.any
    (fun m => m.applied && decide ((0.8 : ℚ) ≤ m.confidence))
  let mediumConfidenceSuggestions := context.proposedCorrections.filter
    (fun c => !c.applied && decide ((0.7 : ℚ) ≤ c.confidence) &&
      decide (c.confidence < (0.8 : ℚ)))
  let aggregateConfidence := context.aggregateConfidence
  let r0 : Bool := true
  let parts0 : List String := []
  let r1 := if hasDuplicate then true else r0
  let parts1 := if hasDuplicate then
      parts0 ++ ["Potential duplicate detected based on vendor, invoice number, and invoice date proximity."]
    else parts0
  let r2 := if !hasDuplicate && highConfidenceApplied && mediumConfidenceSuggestions.isEmpty then
      false
    else r1
  let parts2 := if !hasDuplicate && highConfidenceApplied && mediumConfidenceSuggestions.isEmpty then
      parts1 ++ ["High-confidence learned corrections applied without conflicting suggestions; auto-correction is allowed."]
    else parts1
  let r3 := if !mediumConfidenceSuggestions.isEmpty then true else r2
  let parts3 := if !mediumConfidenceSuggestions.isEmpty then
      parts2 ++ ["Medium-confidence suggestions present; human review recommended before applying corrections."]
    else parts2
  let r4 := if !highConfidenceApplied && mediumConfidenceSuggestions.isEmpty && !hasDuplicate then
      true
    else r3
  let parts4 := if !highConfidenceApplied && mediumConfidenceSuggestions.isEmpty && !hasDuplicate then
      parts3 ++ ["No sufficiently confident learned memory found; escalate to human review."]
    else parts3
  let confidenceScore := min (max aggregateConfidence 0) 1
  { requiresHumanReview := r4
    confidenceScore := confidenceScore
    reasoning := String.intercalate " " parts4 }

/-! ### Learn (learn.ts) -/

/-- The flattened `signal.event.details` record: the orchestrator
builds exactly these keys, and `learnFromSignal` reads them back through
`as`-casts. -/
structure LearnDetails where
  memoryId : Option String := none
  approved : Option Bool := none
  field : Option String := none
  value : Option JVal := none
  vendorName : Option String := none
  invoiceNumber : Option String := none
  invoiceDate : Option String := none
  resolutionStatus : Option ResolutionStatus := none
  isDuplicate : Option Bool := none
deriving DecidableEq, Repr

structure AuditEvent where
  id : String
  type : String
  timestamp : Int
  details : LearnDetails
deriving DecidableEq, Repr

structure LearningSignal where
  event : AuditEvent
  feedbackScore : Option ℚ := none
deriving DecidableEq, Repr

/-- learn.ts `learnFromSignal` (lines 11-190).  `uuid`/`n` model the
global `uuidv4()` supply, consumed lazily exactly where the source calls
it (only the resolution memory of the update path allocates one; the
`memoryId ?? uuidv4()` in the create path is dead, since the guard has
already established a truthy `memoryId`). -/
def learnFromSignal (repo : List Memory) (signal : LearningSignal) (now : Int)
    (uuid : Nat → String) (n : Nat) : Option Memory × List Memory × Nat :=
  let d := signal.event.details
  if (match d.memoryId with | none => true | some s => s.isEmpty) || d.approved.isNone then
    (none, repo, n)
  else
    let mid := match d.memoryId with | some s => s | none => ""
    let approved := d.approved.getD false
    -- category / stored-field inference, shared verbatim by both paths
    let inferCatField : LearnedMemoryCategory × Option String → LearnedMemoryCategory × Option String :=
      fun cf =>
        let cf1 := if d.field = some "taxAmount" ∨ d.field = some "grossAmount" then
            (.vendor, some "vatIncluded") else cf
        match d.field with
        | some f =>
          if strStartsWith f "lineItem:" && strEndsWith f ":sku" then (.vendor, some "freightSku")
          else cf1
        | none => cf1
    match getMemoryById repo mid with
    | none =>
      -- no existing memory: create path (lines 34-88)
      let initialConfidence : ℚ := if approved then 0.8 else 0.5
      let (category, storedField) := inferCatField (.correction, d.field)
      let baseMetadata : Metadata :=
        { field := d.field, value := d.value,
          proposedValue := if storedField = some "freightSku" then d.value else none }
      let content : ContentBlob :=
        { category := some category, confidence := some initialConfidence,
          usageCount := some 1, metadata := some baseMetadata, field := storedField,
          vendorName := d.vendorName, invoiceNumber := d.invoiceNumber,
          invoiceDate := d.invoiceDate }
      let memory : Memory :=
        { id := mid, kind := .long_term, content := .obj content,
          createdAt := now, updatedAt := now, source := some "learn" }
      (some memory, saveMemory repo memory, n)
    | some existing =>
      -- existing memory: update path (lines 91-189)
      let parsed : ContentBlob := match existing.content with | .obj c => c | .raw _ => {}
      let currentConfidence := parsed.confidence.getD 0.7
      let currentUsage := parsed.usageCount.getD 0
      let fs := signal.feedbackScore.getD 1
      let newConfidence :=
        if approved then min (currentConfidence + 0.05 * fs) 0.95
        else max (currentConfidence - 0.05 * fs) 0
      let (category, storedField) := inferCatField
        (parsed.category.getD .correction,
         match parsed.field with | some f => some f | none => d.field)
      let metadata1 : Metadata :=
        { parsed.metadata.getD {} with field := d.field, value := d.value }
      let metadata2 :=
        if storedField = some "freightSku" then { metadata1 with proposedValue := d.value }
        else metadata1
      let updated : ContentBlob :=
        { category := some category, confidence := some newConfidence,
          usageCount := some (currentUsage + 1), metadata := some metadata2,
          field := storedField,
          vendorName := match parsed.vendorName with | some v => some v | none => d.vendorName,
          invoiceNumber := match parsed.invoiceNumber with | some v => some v | none => d.invoiceNumber,
          invoiceDate := match parsed.invoiceDate with | some v => some v | none => d.invoiceDate }
      let updatedMemory : Memory :=
        { existing with content := .obj updated, updatedAt := now }
      let repo1 := saveMemory repo updatedMemory
      if d.resolutionStatus.isSome || d.isDuplicate = some true then
        let resolutionContent : ContentBlob :=
          { category := some .resolution, vendorName := d.vendorName,
            invoiceNumber := d.invoiceNumber, invoiceDate := d.invoiceDate,
            resolutionStatus :=
              match d.resolutionStatus with
              | some r => some r
              | none => if d.isDuplicate = some true then some .approved else none,
            confidence := some (if approved then 0.8 else 0.5), usageCount := some 1,
            metadata := some { isDuplicate := some (d.isDuplicate = some true) } }
        let resolutionMemory : Memory :=
          { id := uuid n, kind := .long_term, content := .obj resolutionContent,
            createdAt := now, updatedAt := now, source := some "learn:resolution" }
        (some updatedMemory, saveMemory repo1 resolutionMemory, n + 1)
      else
        (some updatedMemory, repo1, n)

/-! ### Orchestrator (engine/index.ts) -/

structure HumanFeedbackInput where
  approvedCorrections : List String
  rejectedCorrections : List String
deriving DecidableEq, Repr

/-- The public result contract.  The `auditTrail` (timestamps and
per-stage presentation records) is not modelled; nothing downstream of
the contract reads it. -/
structure EngineOutputContract where
  normalizedInvoice : NormalizedInvoice
  proposedCorrections : List ProposedCorrection
  requiresHumanReview : Bool
  reasoning : String
  confidenceScore : ℚ
  memoryUpdates : List MemoryUpdate
deriving DecidableEq, Repr

/-- One iteration of the orchestrator's per-correction learning loop
(engine/index.ts lines 84-152), threading the repository, the uuid
counter and the accumulated `memoryUpdates`. -/
def processCorrectionFeedback (invoice : NormalizedInvoice) (duplicateDetected : Bool)
    (humanFeedback : HumanFeedbackInput) (now : Int) (uuid : Nat → String)
    (state : List Memory × Nat × List MemoryUpdate) (correction : ProposedCorrection) :
    List Memory × Nat × List MemoryUpdate :=
  let (repo, n, updates) := state
  let approved := humanFeedback.approvedCorrections.contains correction.field
  let rejected := humanFeedback.rejectedCorrections.contains correction.field
  if !approved && !rejected then state
  else
    let eventId := uuid n
    let n1 := n + 1
    let (mid, n2) := match correction.memoryId with
      | some m => (m, n1)
      | none => (uuid n1, n1 + 1)
    let signal : LearningSignal :=
      { event :=
          { id := eventId, type := "learn", timestamp := now,
            details :=
              { memoryId := some mid, approved := some approved,
                field := some correction.field, value := some correction.proposedValue,
                vendorName := some invoice.vendorName,
                invoiceNumber := some invoice.invoiceNumber,
                invoiceDate := some (isoString invoice.issuedAt),
                resolutionStatus := some (if approved then .approved else .rejected),
                isDuplicate := some duplicateDetected } }
        feedbackScore := some (if approved then 1 else -1) }
    let beforeMemory := match correction.memoryId with
      | some m => getMemoryById repo m
      | none => none
    let (previousConfidence, previousUsage) :=
      match beforeMemory with
      | some bm =>
        match bm.content with
        | .obj c => (c.confidence.getD 0.7, c.usageCount.getD 0)
        | .raw _ => ((0.7 : ℚ), (0 : ℚ))
      | none => ((0.7 : ℚ), (0 : ℚ))
    let r := learnFromSignal repo signal now uuid n2
    match r.1 with
    | none => (r.2.1, r.2.2, updates)
    | some updated =>
      let (newConfidence, newUsage) :=
        match updated.content with
        | .obj c => (c.confidence.getD previousConfidence, c.usageCount.getD (previousUsage + 1))
        | .raw _ => (previousConfidence, previousUsage + 1)
      (r.2.1, r.2.2, updates ++
        [{ memoryId := updated.id, previousConfidence := previousConfidence,
           newConfidence := newConfidence, usageCount := newUsage,
           action := if approved then .reinforce else .decay }])

/-- engine/index.ts `processInvoiceWithMemory` (lines 20-183): the
recall → apply → decide sequence, then the optional learning loop.
Returns the output contract together with the repository state after all
learning writes. -/
def processInvoiceWithMemory (repo : List Memory) (invoice : NormalizedInvoice)
    (rawText : String) (humanFeedback : Option HumanFeedbackInput) (now : Int)
    (uuid : Nat → String) : EngineOutputContract × List Memory :=
  let recallQuery : RecallQuery :=
    { vendorName := invoice.vendorName, invoiceNumber := invoice.invoiceNumber,
      invoiceDate := invoice.issuedAt, rawText := some rawText }
  let recallResult := recallMemories repo recallQuery
  let applyResult := applyMemoriesToContext
    { invoice := invoice, rawText := rawText, recallSummary := recallResult }
  let decision := decideNextAction applyResult
  let learnState :=
    match humanFeedback with
    | some fb =>
      applyResult.proposedCorrections.foldl
        (processCorrectionFeedback invoice recallResult.duplicateDetected fb now uuid)
        (repo, 0, [])
    | none => (repo, 0, [])
  ({ normalizedInvoice := applyResult.normalizedInvoice
     proposedCorrections := applyResult.proposedCorrections
     requiresHumanReview := decision.requiresHumanReview || recallResult.duplicateDetected
     reasoning := decision.reasoning
     confidenceScore := decision.confidenceScore
     memoryUpdates := learnState.2.2 }, learnState.1)

/-! ### Content accessors and concrete scenario inputs used by the
theorems below -/

/-- The `confidence` slot of a stored memory's payload. -/
def storedConfidence (m : Memory) : Option ℚ :=
  match m.content with
  | .obj c => c.confidence
  | .raw _ => none

/-- The `usageCount` slot of a stored memory's payload. -/
def storedUsage (m : Memory) : Option ℚ :=
  match m.content with
  | .obj c => c.usageCount
  | .raw _ => none

/-- The `category` slot of a stored memory's payload. -/
def storedCategory (m : Memory) : Option LearnedMemoryCategory :=
  match m.content with
  | .obj c => c.category
  | .raw _ => none

/-- The `field` slot of a stored memory's payload. -/
def storedFieldOf (m : Memory) : Option String :=
  match m.content with
  | .obj c => c.field
  | .raw _ => none

/-- A deterministic uuid supply for concrete runs. -/
def uuidT : Nat → String := fun n => "uuid-" ++ toString n

/-- Scenario A invoice: gross total 119.00, no line items, currency
present. -/
def invoiceA : NormalizedInvoice :=
  { id := "inv-2", customerName := "Parts AG", currency := .str "EUR",
    totalAmount := 119, issuedAt := 0, lineItems := [],
    vendorName := "Parts AG", invoiceNumber := "R-1001" }

/-- Scenario A raw text: contains "inkl. MwSt.". -/
def rawA : String := "Total 119.00 inkl. MwSt."

/-- Scenario A human feedback: the taxAmount proposal is approved. -/
def feedbackA : HumanFeedbackInput :=
  { approvedCorrections := ["taxAmount"], rejectedCorrections := [] }

/-- Scenario A store after the approved Learn call. -/
def repoA : List Memory :=
  (processInvoiceWithMemory [] invoiceA rawA (some feedbackA) 0 uuidT).2

/-- A vendor memory for `serviceDate` at medium confidence 0.75, used by
the rejection-feedback scenarios. -/
def serviceMem : Memory :=
  { id := "m1", kind := .long_term,
    content := .obj
      { category := some .vendor, confidence := some 0.75, usageCount := some 1,
        metadata := some { proposedValue := some (.str "2024-03-01") },
        field := some "serviceDate", vendorName := some "Supplier GmbH" },
    createdAt := 0, updatedAt := 0 }

/-- Invoice matching `serviceMem`'s vendor, with an absent
`serviceDate`. -/
def invoiceB : NormalizedInvoice :=
  { id := "inv-9", customerName := "Supplier GmbH", currency := .str "EUR",
    totalAmount := 50, issuedAt := 0, lineItems := [],
    vendorName := "Supplier GmbH", invoiceNumber := "S-1" }

/-- A high-confidence vendor memory for `freightSku`. -/
def freightMemHigh : Memory :=
  { id := "f1", kind := .long_term,
    content := .obj
      { category := some .vendor, confidence := some 0.85, usageCount := some 2,
        metadata := some { proposedValue := some (.str "FREIGHT") },
        field := some "freightSku", vendorName := some "Freight Co" },
    createdAt := 0, updatedAt := 0 }

/-- An apply input whose invoice has one freight line item and whose
recall carries `freightMemHigh` scored; the freight heuristic will
auto-apply and mutate the shared line item. -/
def applyInputFreight : ApplyInputContext :=
  { invoice :=
      { id := "inv-7", customerName := "Freight Co", currency := .str "EUR",
        totalAmount := 200, issuedAt := 0,
        lineItems := [{ id := "1", description := "Seefracht Hamburg",
                        quantity := 1, unitPrice := 200 }],
        vendorName := "Freight Co", invoiceNumber := "F-1" }
    rawText := "Rechnung"
    recallSummary :=
      { vendorMemories :=
          [{ memory := freightMemHigh,
             content :=
               { category := .vendor, confidence := 0.85, usageCount := 2,
                 metadata := some { proposedValue := some (.str "FREIGHT") },
                 field := some "freightSku", vendorName := some "Freight Co" },
             score := 0.85 }]
        correctionMemories := [], resolutionMemories := [],
        duplicateDetected := false, duplicateScore := 0,
        allMemories :=
          [{ memory := freightMemHigh,
             content :=
               { category := .vendor, confidence := 0.85, usageCount := 2,
                 metadata := some { proposedValue := some (.str "FREIGHT") },
                 field := some "freightSku", vendorName := some "Freight Co" },
             score := 0.85 }] } }

/-- A learning signal carrying a `resolutionStatus` whose `memoryId`
resolves to no stored memory (create path). -/
def signalC5 : LearningSignal :=
  { event :=
      { id := "e1", type := "learn", timestamp := 0,
        details :=
          { memoryId := some "m-new", approved := some true,
            field := some "taxAmount", value := some (.num 19),
            vendorName := some "Parts AG", invoiceNumber := some "R-1001",
            invoiceDate := some "@0", resolutionStatus := some .approved,
            isDuplicate := some false } }
    feedbackScore := some 1 }

/-- Feedback naming the same field as both approved and rejected. -/
def feedbackOverlap : HumanFeedbackInput :=
  { approvedCorrections := ["serviceDate"], rejectedCorrections := ["serviceDate"] }

/-- Rejection-only feedback for the serviceDate proposal. -/
def feedbackReject : HumanFeedbackInput :=
  { approvedCorrections := [], rejectedCorrections := ["serviceDate"] }

/-- `k` successive `learnFromSignal` calls with the same signal,
threading the repository and the uuid counter — used to state the
convergence of repeated feedback on one memory. -/
def learnIter (signal : LearningSignal) (now : Int) (uuid : Nat → String) :
    Nat → List Memory × Nat → List Memory × Nat
  | 0, s => s
  | k + 1, s =>
    learnIter signal now uuid k ((learnFromSignal s.1 signal now uuid s.2).2)

/-- An approval signal for memory `m1` with default feedback score and
no resolution flags. -/
def signalApprove : LearningSignal :=
  { event :=
      { id := "e2", type := "learn", timestamp := 0,
        details := { memoryId := some "m1", approved := some true } }
    feedbackScore := none }

/-- A stored resolution memory matching `queryDup` on all three
duplicate conditions. -/
def resolutionMem : Memory :=
  { id := "r1", kind := .long_term,
    content := .obj
      { category := some .resolution, confidence := some 0.8, usageCount := some 1,
        vendorName := some "Supplier GmbH", invoiceNumber := some "S-1",
        invoiceDate := some "@0",
        metadata := some { isDuplicate := some true } },
    createdAt := 0, updatedAt := 0 }

/-- A recall query matching `resolutionMem`. -/
def queryDup : RecallQuery :=
  { vendorName := "Supplier GmbH", invoiceNumber := "S-1", invoiceDate := 0 }

/-- The scored element recall produces for `resolutionMem` under
`queryDup` (confidence 0.8 plus all three +0.05 bonuses). -/
def scoredResolution : ScoredLearnedMemory :=
  { memory := resolutionMem,
    content :=
      { category := .resolution, vendorName := some "Supplier GmbH",
        invoiceNumber := some "S-1", invoiceDate := some "@0",
        confidence := 0.8, usageCount := 1,
        metadata := some { isDuplicate := some true } },
    score := 0.95 }

/-- C1: `decideNextAction` returns `requiresHumanReview = false` exactly
when no duplicate was detected during recall, at least one applied
correction has confidence ≥ 0.8, and no proposed-but-unapplied
correction has confidence in `[0.7, 0.8)`; a detected duplicate always
forces `requiresHumanReview = true`. -/
theorem decide_auto_iff (context : ApplyContext) :
    ((decideNextAction context).requiresHumanReview = false ↔
      (context.input.recallSummary.duplicateDetected = false ∧
        (∃ m ∈ context.appliedMemories, m.applied = true ∧ (0.8 : ℚ) ≤ m.confidence) ∧
        (∀ c ∈ context.proposedCorrections,
          c.applied = false → ¬((0.7 : ℚ) ≤ c.confidence ∧ c.confidence < (0.8 : ℚ))))) ∧
    (context.input.recallSummary.duplicateDetected = true →
      (decideNextAction context).requiresHumanReview = true) := by
  unfold decideNextAction
  set dup := context.input.recallSummary.duplicateDetected with hdup
  set hc := context.appliedMemories.any
    (fun m => m.applied && decide ((0.8 : ℚ) ≤ m.confidence)) with hhc
  set meds := context.proposedCorrections.filter
    (fun c => !c.applied && decide ((0.7 : ℚ) ≤ c.confidence) &&
      decide (c.confidence < (0.8 : ℚ))) with hmeds
  have hex : hc = true ↔
      (∃ m ∈ context.appliedMemories, m.applied = true ∧ (0.8 : ℚ) ≤ m.confidence) := by
    rw [hhc, List.any_eq_true]
    constructor
    · rintro ⟨m, hm, hb⟩
      simp only [Bool.and_eq_true, decide_eq_true_eq] at hb
      exact ⟨m, hm, hb.1, hb.2⟩
    · rintro ⟨m, hm, h1, h2⟩
      exact ⟨m, hm, by simp [h1, h2]⟩
  have hmed : meds.isEmpty = true ↔
      (∀ c ∈ context.proposedCorrections,
        c.applied = false → ¬((0.7 : ℚ) ≤ c.confidence ∧ c.confidence < (0.8 : ℚ))) := by
    rw [hmeds, List.isEmpty_iff, List.filter_eq_nil_iff]
    constructor
    · intro h c hc hap hcontra
      have := h c hc
      simp [hap, hcontra.1, hcontra.2] at this
    · intro h c hc
      by_cases hap : c.applied
      · simp [hap]
      · have := h c hc (by simpa using hap)
        simp only [Bool.not_eq_true] at hap
        by_cases h1 : (0.7 : ℚ) ≤ c.confidence
        · have h2 : ¬ c.confidence < (0.8 : ℚ) := fun hlt => this ⟨h1, hlt⟩
          simp [hap, h1, h2]
        · simp [hap, h1]
  constructor
  · cases hdupb : dup <;> cases hhcb : hc <;> cases hmedb : meds.isEmpty <;>
      simp_all [hex, hmed]
  · intro h
    cases hhcb : hc <;> cases hmedb : meds.isEmpty <;> simp_all

/-- Witness for C1 at a concrete apply context: one applied
high-confidence record, no suggestions, no duplicate. -/
theorem decide_auto_iff_witness :
    (decideNextAction
      { input :=
          { invoice :=
              { id := "i1", customerName := "Acme", currency := .str "EUR",
                totalAmount := 100, issuedAt := 0, lineItems := [],
                vendorName := "Acme", invoiceNumber := "N1" }
            rawText := ""
            recallSummary :=
              { vendorMemories := [], correctionMemories := [],
                resolutionMemories := [], duplicateDetected := false,
                duplicateScore := 0, allMemories := [] } }
        memories := []
        normalizedInvoice :=
          { id := "i1", customerName := "Acme", currency := .str "EUR",
            totalAmount := 100, issuedAt := 0, lineItems := [],
            vendorName := "Acme", invoiceNumber := "N1" }
        proposedCorrections := []
        appliedMemories :=
          [{ field := "serviceDate", memoryId := "m1", confidence := 0.85,
             applied := true, reason := "r" }]
        aggregateConfidence := 0.85 }).requiresHumanReview = false := by
  have h := decide_auto_iff
    { input :=
        { invoice :=
            { id := "i1", customerName := "Acme", currency := .str "EUR",
              totalAmount := 100, issuedAt := 0, lineItems := [],
              vendorName := "Acme", invoiceNumber := "N1" }
          rawText := ""
          recallSummary :=
            { vendorMemories := [], correctionMemories := [],
              resolutionMemories := [], duplicateDetected := false,
              duplicateScore := 0, allMemories := [] } }
      memories := []
      normalizedInvoice :=
        { id := "i1", customerName := "Acme", currency := .str "EUR",
          totalAmount := 100, issuedAt := 0, lineItems := [],
          vendorName := "Acme", invoiceNumber := "N1" }
      proposedCorrections := []
      appliedMemories :=
        [{ field := "serviceDate", memoryId := "m1", confidence := 0.85,
           applied := true, reason := "r" }]
      aggregateConfidence := 0.85 }
  exact h.1.mpr (by
    refine ⟨rfl, ⟨_, List.mem_singleton.mpr rfl, rfl, by norm_num⟩, ?_⟩
    intro c hc
    simp at hc)

/-- C2 (code-bug evidence): processing rejection feedback through
`processInvoiceWithMemory` INCREASES the stored confidence.  The
orchestrator passes `feedbackScore = -1` for a rejection, and
`learnFromSignal`'s rejection branch computes
`max(confidence - 0.05 x feedbackScore, 0) = confidence + 0.05`: the
memory stored at 0.75 ends at 0.8 after one rejection, while the spec
(and the repository README, "when a correction is rejected, confidence
is decremented ... bounded in [0, 0.95]") promises a monotone decrease
toward the floor 0. -/
theorem reject_feedback_increases_confidence :
    ((getMemoryById (processInvoiceWithMemory [serviceMem] invoiceB "Rechnung"
        (some feedbackReject) 0 uuidT).2 "m1").bind storedConfidence) = some 0.8 ∧
    storedConfidence serviceMem = some 0.75 ∧
    ((0.75 : ℚ) < 0.8) ∧
    (processInvoiceWithMemory [serviceMem] invoiceB "Rechnung"
        (some feedbackReject) 0 uuidT).1.memoryUpdates =
      [{ memoryId := "m1", previousConfidence := 0.75, newConfidence := 0.8,
         usageCount := 2, action := .decay }] := by decide

/-- C3 (counterexample): `applyMemoriesToContext` DOES mutate the
caller's invoice from the caller's perspective: `lineItems` is shared
between the input and the shallow copy, and the freight heuristic at
high confidence writes `(item as any).sku` on the shared element, so the
caller's line item changes from `sku = none` to `sku = "FREIGHT"`. -/
theorem apply_mutates_caller_line_item_sku :
    applyInputFreight.invoice.lineItems.map (fun i => i.sku) = [none] ∧
    (callerInvoiceAfterApply applyInputFreight).lineItems.map (fun i => i.sku) =
      [some (.str "FREIGHT")] ∧
    callerInvoiceAfterApply applyInputFreight ≠ applyInputFreight.invoice := by decide

/-- C5 (counterexample): in the create path (no existing memory for the
id) `learnFromSignal` returns before the resolution-memory block, so a
signal carrying `resolutionStatus` produces NO second resolution-category
memory — the store afterwards holds exactly one memory, of category
`vendor`. -/
theorem create_path_emits_no_resolution_memory :
    signalC5.event.details.resolutionStatus = some .approved ∧
    getMemoryById [] "m-new" = none ∧
    ((learnFromSignal [] signalC5 0 uuidT 0).2.1).map storedCategory = [some .vendor] ∧
    ((learnFromSignal [] signalC5 0 uuidT 0).2.1).filter
      (fun m => decide (storedCategory m = some .resolution)) = [] := by decide

/-- C6 (counterexample): in scenario A, a single human-approved Learn
call creates the vendor memory for `vatIncluded` at confidence 0.8, not
0.85 — no memory with confidence 0.85 exists in the store. -/
theorem scenario_a_confidence_is_08_not_085 :
    repoA.map storedConfidence = [some 0.8] ∧
    repoA.map storedCategory = [some .vendor] ∧
    repoA.map storedFieldOf = [some "vatIncluded"] ∧
    repoA.filter (fun m => decide (storedConfidence m = some 0.85)) = [] := by decide

set_option maxRecDepth 4000 in
/-- C6 (amended): end-to-end scenario A with the confidence the code
actually stores (0.8): the first run proposes `taxAmount = 19` at
confidence 0.75 (medium band, not applied) and requires human review;
after the approved Learn call a vendor memory for `vatIncluded` with
confidence 0.8 exists; re-processing auto-applies `taxAmount` and
returns `requiresHumanReview = false`.  (The rational model computes the
tax exactly: 119 − 119/1.19 = 19.) -/
theorem scenario_a_end_to_end :
    ((processInvoiceWithMemory [] invoiceA rawA none 0 uuidT).1.proposedCorrections.map
        (fun c => (c.field, c.proposedValue, c.confidence, c.applied)) =
      [("taxAmount", .num 19, 0.75, false)] ∧
     (processInvoiceWithMemory [] invoiceA rawA none 0 uuidT).1.requiresHumanReview = true) ∧
    (repoA.map storedCategory = [some .vendor] ∧
     repoA.map storedFieldOf = [some "vatIncluded"] ∧
     repoA.map storedConfidence = [some 0.8]) ∧
    ((processInvoiceWithMemory repoA invoiceA rawA none 0 uuidT).1.requiresHumanReview = false ∧
     (processInvoiceWithMemory repoA invoiceA rawA none 0 uuidT).1.proposedCorrections.map
        (fun c => (c.field, c.applied, c.confidence)) = [("taxAmount", true, 0.8)] ∧
     (processInvoiceWithMemory repoA invoiceA rawA none 0 uuidT).1.normalizedInvoice.taxAmount =
       some 19) := by decide

/-- C10 (counterexample): when a correction's field appears in BOTH
feedback lists, the orchestrator computes `approved = true` and records
`action = reinforce`, although the field was rejected — so "action is
decay exactly when the field was rejected" fails. -/
theorem overlap_feedback_records_reinforce :
    (processInvoiceWithMemory [serviceMem] invoiceB "Rechnung"
        (some feedbackOverlap) 0 uuidT).1.proposedCorrections.map (fun c => c.field) =
      ["serviceDate"] ∧
    feedbackOverlap.rejectedCorrections = ["serviceDate"] ∧
    (processInvoiceWithMemory [serviceMem] invoiceB "Rechnung"
        (some feedbackOverlap) 0 uuidT).1.memoryUpdates.map (fun u => u.action) =
      [.reinforce] := by decide

/-! ### Helper lemmas for the apply confidence-band invariant -/

theorem band_of_maybeApply (field : String) (cv : Option JVal)
    (mems : List ScoredLearnedMemory) :
    ∀ c ∈ (maybeApplyFieldFromMemory field cv mems).1,
      (0.7 : ℚ) ≤ c.confidence ∧ (c.applied = true → (0.8 : ℚ) ≤ c.confidence) := by
  intro c hc
  unfold maybeApplyFieldFromMemory at hc
  by_cases hp : presentNonNull cv
  · simp [hp] at hc
  · simp only [hp, Bool.false_eq_true, if_false] at hc
    rcases hfind : mems.find? (fun m => m.content.field = some field) with _ | cand
    · simp [hfind] at hc
    · simp only [hfind] at hc
      by_cases hH : HIGH_CONFIDENCE_THRESHOLD ≤ cand.content.confidence
      · simp only [hH, if_true] at hc
        rcases hpv : cand.content.metadata.bind (fun md => md.proposedValue) with _ | pv
        · simp [hpv] at hc
        · simp only [hpv, List.mem_singleton] at hc
          subst hc
          unfold HIGH_CONFIDENCE_THRESHOLD at hH
          refine ⟨?_, fun _ => ?_⟩ <;> simp only [registerCorrection] <;> linarith
      · simp only [hH, if_false] at hc
        by_cases hM : MEDIUM_CONFIDENCE_THRESHOLD ≤ cand.content.confidence
        · simp only [hM, if_true] at hc
          rcases hpv : cand.content.metadata.bind (fun md => md.proposedValue) with _ | pv
          · simp [hpv] at hc
          · simp only [hpv, List.mem_singleton] at hc
            subst hc
            unfold MEDIUM_CONFIDENCE_THRESHOLD at hM
            refine ⟨by simpa only [registerCorrection] using hM, ?_⟩
            simp [registerCorrection]
        · simp [hM] at hc

theorem serviceDateBlock_corr_band (input : ApplyInputContext) (st : HeurOut) :
    ∀ c ∈ (serviceDateBlock input st).corrections,
      c ∈ st.corrections ∨
      ((0.7 : ℚ) ≤ c.confidence ∧ (c.applied = true → (0.8 : ℚ) ≤ c.confidence)) := by
  intro c hc
  unfold serviceDateBlock at hc
  simp only [HeurOut.mk.injEq] at hc
  rcases List.mem_append.mp hc with h | h
  · exact Or.inl h
  · exact Or.inr (band_of_maybeApply _ _ _ c h)

theorem vatBlock_corr_band (input : ApplyInputContext) (st : HeurOut) :
    ∀ c ∈ (vatBlock input st).corrections,
      c ∈ st.corrections ∨
      ((0.7 : ℚ) ≤ c.confidence ∧ (c.applied = true → (0.8 : ℚ) ≤ c.confidence)) := by
  intro c hc
  unfold vatBlock at hc
  by_cases hdet : detectVatIncluded input.rawText
  swap
  · simp only [hdet, Bool.false_eq_true, if_false] at hc; exact Or.inl hc
  simp only [hdet, if_true] at hc
  by_cases hH : HIGH_CONFIDENCE_THRESHOLD ≤
      ((input.recallSummary.vendorMemories.find?
        (fun m => m.content.field = some "vatIncluded")).map
          (fun m => m.content.confidence)).getD 0.75
  · simp only [hH, if_true] at hc
    rcases List.mem_append.mp hc with h | h
    · exact Or.inl h
    · right
      simp only [List.mem_singleton] at h
      subst h
      unfold HIGH_CONFIDENCE_THRESHOLD at hH
      refine ⟨?_, fun _ => ?_⟩ <;> simp only [registerCorrection] <;> linarith
  · simp only [hH, if_false] at hc
    by_cases hM : MEDIUM_CONFIDENCE_THRESHOLD ≤
        ((input.recallSummary.vendorMemories.find?
          (fun m => m.content.field = some "vatIncluded")).map
            (fun m => m.content.confidence)).getD 0.75
    · simp only [hM, if_true] at hc
      rcases List.mem_append.mp hc with h | h
      · exact Or.inl h
      · right
        simp only [List.mem_singleton] at h
        subst h
        unfold MEDIUM_CONFIDENCE_THRESHOLD at hM
        refine ⟨by simpa only [registerCorrection] using hM, ?_⟩
        simp [registerCorrection]
    · simp only [hM, if_false] at hc; exact Or.inl hc

theorem currencyBlock_corr_band (input : ApplyInputContext) (st : HeurOut) :
    ∀ c ∈ (currencyBlock input st).corrections,
      c ∈ st.corrections ∨
      ((0.7 : ℚ) ≤ c.confidence ∧ (c.applied = true → (0.8 : ℚ) ≤ c.confidence)) := by
  intro c hc
  unfold currencyBlock at hc
  by_cases hcur : !st.invoice.currency.truthy
  swap
  · simp only [hcur, Bool.false_eq_true, if_false] at hc; exact Or.inl hc
  simp only [hcur, if_true] at hc
  by_cases hH : HIGH_CONFIDENCE_THRESHOLD ≤
      ((input.recallSummary.vendorMemories.find?
        (fun m => m.content.field = some "currency")).map
          (fun m => m.content.confidence)).getD 0.7
  · simp only [hH, if_true] at hc
    rcases hct : normalizeCurrencyFromText input.rawText with _ | s
    all_goals simp only [hct] at hc
    · rcases hpv : (input.recallSummary.vendorMemories.find?
          (fun m => m.content.field = some "currency")).bind
            (fun m => m.content.metadata.bind (fun md => md.proposedValue)) with _ | pv
      all_goals simp only [hpv] at hc
      · exact Or.inl hc
      · by_cases htr : pv.truthy
        swap
        · simp only [htr, Bool.false_eq_true, if_false] at hc; exact Or.inl hc
        simp only [htr, if_true] at hc
        rcases List.mem_append.mp hc with h | h
        · exact Or.inl h
        · right
          simp only [List.mem_singleton] at h
          subst h
          unfold HIGH_CONFIDENCE_THRESHOLD at hH
          refine ⟨?_, fun _ => ?_⟩ <;> simp only [registerCorrection] <;> linarith
    · by_cases htr : (JVal.str s).truthy
      swap
      · simp only [htr, Bool.false_eq_true, if_false] at hc; exact Or.inl hc
      simp only [htr, if_true] at hc
      rcases List.mem_append.mp hc with h | h
      · exact Or.inl h
      · right
        simp only [List.mem_singleton] at h
        subst h
        unfold HIGH_CONFIDENCE_THRESHOLD at hH
        refine ⟨?_, fun _ => ?_⟩ <;> simp only [registerCorrection] <;> linarith
  · simp only [hH, if_false] at hc
    by_cases hM : MEDIUM_CONFIDENCE_THRESHOLD ≤
        ((input.recallSummary.vendorMemories.find?
          (fun m => m.content.field = some "currency")).map
            (fun m => m.content.confidence)).getD 0.7
    swap
    · simp only [hM, if_false] at hc
      rcases hct : normalizeCurrencyFromText input.rawText with _ | s
      all_goals simp only [hct] at hc
      · rcases hpv : (input.recallSummary.vendorMemories.find?
            (fun m => m.content.field = some "currency")).bind
              (fun m => m.content.metadata.bind (fun md => md.proposedValue)) with _ | pv
        all_goals simp only [hpv] at hc
        · exact Or.inl hc
        · by_cases htr : pv.truthy
          all_goals simp only [htr, Bool.false_eq_true, if_false, if_true] at hc
          all_goals exact Or.inl hc
      · by_cases htr : (JVal.str s).truthy
        all_goals simp only [htr, Bool.false_eq_true, if_false, if_true] at hc
        all_goals exact Or.inl hc
    simp only [hM, if_true] at hc
    rcases hct : normalizeCurrencyFromText input.rawText with _ | s
    all_goals simp only [hct] at hc
    · rcases hpv : (input.recallSummary.vendorMemories.find?
          (fun m => m.content.field = some "currency")).bind
            (fun m => m.content.metadata.bind (fun md => md.proposedValue)) with _ | pv
      all_goals simp only [hpv] at hc
      · exact Or.inl hc
      · by_cases htr : pv.truthy
        swap
        · simp only [htr, Bool.false_eq_true, if_false] at hc; exact Or.inl hc
        simp only [htr, if_true] at hc
        rcases List.mem_append.mp hc with h | h
        · exact Or.inl h
        · right
          simp only [List.mem_singleton] at h
          subst h
          unfold MEDIUM_CONFIDENCE_THRESHOLD at hM
          refine ⟨by simpa only [registerCorrection] using hM, ?_⟩
          simp [registerCorrection]
    · by_cases htr : (JVal.str s).truthy
      swap
      · simp only [htr, Bool.false_eq_true, if_false] at hc; exact Or.inl hc
      simp only [htr, if_true] at hc
      rcases List.mem_append.mp hc with h | h
      · exact Or.inl h
      · right
        simp only [List.mem_singleton] at h
        subst h
        unfold MEDIUM_CONFIDENCE_THRESHOLD at hM
        refine ⟨by simpa only [registerCorrection] using hM, ?_⟩
        simp [registerCorrection]

theorem skontoBlock_corr_band (input : ApplyInputContext) (st : HeurOut) :
    ∀ c ∈ (skontoBlock input st).corrections,
      c ∈ st.corrections ∨
      ((0.7 : ℚ) ≤ c.confidence ∧ (c.applied = true → (0.8 : ℚ) ≤ c.confidence)) := by
  intro c hc
  unfold skontoBlock at hc
  rcases hsk : detectSkontoTerms input.rawText with _ | skonto
  all_goals simp only [hsk] at hc
  · exact Or.inl hc
  by_cases hH : HIGH_CONFIDENCE_THRESHOLD ≤
      ((input.recallSummary.vendorMemories.find?
        (fun m => m.content.field = some "skonto")).map
          (fun m => m.content.confidence)).getD 0.75
  · simp only [hH, if_true] at hc
    rcases List.mem_append.mp hc with h | h
    · exact Or.inl h
    · right
      simp only [List.mem_singleton] at h
      subst h
      unfold HIGH_CONFIDENCE_THRESHOLD at hH
      refine ⟨?_, fun _ => ?_⟩ <;> simp only [registerCorrection] <;> linarith
  · simp only [hH, if_false] at hc
    by_cases hM : MEDIUM_CONFIDENCE_THRESHOLD ≤
        ((input.recallSummary.vendorMemories.find?
          (fun m => m.content.field = some "skonto")).map
            (fun m => m.content.confidence)).getD 0.75
    · simp only [hM, if_true] at hc
      rcases List.mem_append.mp hc with h | h
      · exact Or.inl h
      · right
        simp only [List.mem_singleton] at h
        subst h
        unfold MEDIUM_CONFIDENCE_THRESHOLD at hM
        refine ⟨by simpa only [registerCorrection] using hM, ?_⟩
        simp [registerCorrection]
    · simp only [hM, if_false] at hc; exact Or.inl hc

theorem freightStep_corr_band (input : ApplyInputContext)
    (acc : List InvoiceLineItem × List ProposedCorrection × List AppliedMemoryRecord × ℚ)
    (item : InvoiceLineItem) :
    ∀ c ∈ (freightStep input acc item).2.1,
      c ∈ acc.2.1 ∨
      ((0.7 : ℚ) ≤ c.confidence ∧ (c.applied = true → (0.8 : ℚ) ≤ c.confidence)) := by
  obtain ⟨items, cors, apps, agg⟩ := acc
  intro c hc
  unfold freightStep at hc
  by_cases hfr : !(strContains (lowerStr item.description) "seefracht" ||
      strContains (lowerStr item.description) "shipping" ||
      strContains (lowerStr item.description) "fracht" ||
      strContains (lowerStr item.description) "freight")
  · simp only [hfr, if_true] at hc; exact Or.inl hc
  simp only [hfr, Bool.false_eq_true, if_false] at hc
  by_cases hH : HIGH_CONFIDENCE_THRESHOLD ≤
      ((input.recallSummary.vendorMemories.find?
        (fun m => m.content.field = some "freightSku")).map
          (fun m => m.content.confidence)).getD 0.75
  · simp only [hH, if_true] at hc
    rcases List.mem_append.mp hc with h | h
    · exact Or.inl h
    · right
      simp only [List.mem_singleton] at h
      subst h
      unfold HIGH_CONFIDENCE_THRESHOLD at hH
      refine ⟨?_, fun _ => ?_⟩ <;> simp only [registerCorrection] <;> linarith
  · simp only [hH, if_false] at hc
    by_cases hM : MEDIUM_CONFIDENCE_THRESHOLD ≤
        ((input.recallSummary.vendorMemories.find?
          (fun m => m.content.field = some "freightSku")).map
            (fun m => m.content.confidence)).getD 0.75
    · simp only [hM, if_true] at hc
      rcases List.mem_append.mp hc with h | h
      · exact Or.inl h
      · right
        simp only [List.mem_singleton] at h
        subst h
        unfold MEDIUM_CONFIDENCE_THRESHOLD at hM
        refine ⟨by simpa only [registerCorrection] using hM, ?_⟩
        simp [registerCorrection]
    · simp only [hM, if_false] at hc; exact Or.inl hc

theorem freightFold_corr_band (input : ApplyInputContext) :
    ∀ (items : List InvoiceLineItem)
      (acc : List InvoiceLineItem × List ProposedCorrection × List AppliedMemoryRecord × ℚ),
      ∀ c ∈ (items.foldl (freightStep input) acc).2.1,
        c ∈ acc.2.1 ∨
        ((0.7 : ℚ) ≤ c.confidence ∧ (c.applied = true → (0.8 : ℚ) ≤ c.confidence)) := by
  intro items
  induction items with
  | nil => intro acc c hc; exact Or.inl hc
  | cons item rest ih =>
    intro acc c hc
    rw [List.foldl_cons] at hc
    rcases ih (freightStep input acc item) c hc with h | h
    · exact freightStep_corr_band input acc item c h
    · exact Or.inr h

theorem freightBlock_corr_band (input : ApplyInputContext) (st : HeurOut) :
    ∀ c ∈ (freightBlock input st).corrections,
      c ∈ st.corrections ∨
      ((0.7 : ℚ) ≤ c.confidence ∧ (c.applied = true → (0.8 : ℚ) ≤ c.confidence)) := by
  intro c hc
  unfold freightBlock at hc
  exact freightFold_corr_band input st.invoice.lineItems ([], st.corrections, st.applied, st.aggregate) c hc

/-- C9: every correction emitted by `applyMemoriesToContext` has
confidence ≥ 0.7, and every auto-applied (`applied = true`) correction
has confidence ≥ 0.8; below 0.7 no heuristic emits a correction. -/
theorem apply_confidence_bands (input : ApplyInputContext) :
    ∀ c ∈ (applyMemoriesToContext input).proposedCorrections,
      (0.7 : ℚ) ≤ c.confidence ∧ (c.applied = true → (0.8 : ℚ) ≤ c.confidence) := by
  intro c hc
  unfold applyMemoriesToContext at hc
  simp only [] at hc
  rcases skontoBlock_corr_band input _ c hc with h | hband
  swap
  · exact hband
  rcases freightBlock_corr_band input _ c h with h | hband
  swap
  · exact hband
  rcases currencyBlock_corr_band input _ c h with h | hband
  swap
  · exact hband
  rcases vatBlock_corr_band input _ c h with h | hband
  swap
  · exact hband
  rcases serviceDateBlock_corr_band input _ c h with h | hband
  swap
  · exact hband
  simp at h

/-- Witness for C9 at a concrete input: the freight heuristic emits an
applied correction at confidence 0.85. -/
theorem apply_confidence_bands_witness :
    ({ field := "lineItem:1:sku", proposedValue := .str "FREIGHT",
       reason := "Freight-related description mapped to freight SKU based on learned vendor memory.",
       confidence := 0.85, memoryId := some "f1",
       applied := true } : ProposedCorrection) ∈
        (applyMemoriesToContext applyInputFreight).proposedCorrections ∧
    ((0.7 : ℚ) ≤ (0.85 : ℚ) ∧
      (({ field := "lineItem:1:sku", proposedValue := .str "FREIGHT",
          reason := "Freight-related description mapped to freight SKU based on learned vendor memory.",
          confidence := 0.85, memoryId := some "f1",
          applied := true } : ProposedCorrection).applied = true → (0.8 : ℚ) ≤ (0.85 : ℚ))) :=
  ⟨by decide, apply_confidence_bands applyInputFreight
    { field := "lineItem:1:sku", proposedValue := .str "FREIGHT",
      reason := "Freight-related description mapped to freight SKU based on learned vendor memory.",
      confidence := 0.85, memoryId := some "f1",
      applied := true } (by decide)⟩

/-! ### Helper lemmas for the apply frame condition -/

theorem serviceDateBlock_lineItems (input : ApplyInputContext) (st : HeurOut) :
    (serviceDateBlock input st).invoice.lineItems = st.invoice.lineItems := rfl

theorem vatBlock_lineItems (input : ApplyInputContext) (st : HeurOut) :
    (vatBlock input st).invoice.lineItems = st.invoice.lineItems := by
  unfold vatBlock
  repeat' first | split | simp only [] | rfl

theorem currencyBlock_lineItems (input : ApplyInputContext) (st : HeurOut) :
    (currencyBlock input st).invoice.lineItems = st.invoice.lineItems := by
  unfold currencyBlock
  repeat' first | split | simp only [] | rfl

theorem skontoBlock_lineItems (input : ApplyInputContext) (st : HeurOut) :
    (skontoBlock input st).invoice.lineItems = st.invoice.lineItems := by
  unfold skontoBlock
  repeat' first | split | simp only [] | rfl

theorem freightStep_items (input : ApplyInputContext)
    (acc : List InvoiceLineItem × List ProposedCorrection × List AppliedMemoryRecord × ℚ)
    (item : InvoiceLineItem) :
    ∃ i2, (freightStep input acc item).1 = acc.1 ++ [i2] ∧
      (i2.id = item.id ∧ i2.description = item.description ∧
       i2.quantity = item.quantity ∧ i2.unitPrice = item.unitPrice) := by
  obtain ⟨items, cors, apps, agg⟩ := acc
  unfold freightStep
  by_cases hfr : !(strContains (lowerStr item.description) "seefracht" ||
      strContains (lowerStr item.description) "shipping" ||
      strContains (lowerStr item.description) "fracht" ||
      strContains (lowerStr item.description) "freight")
  · simp only [hfr, if_true]
    exact ⟨item, rfl, rfl, rfl, rfl, rfl⟩
  simp only [hfr, Bool.false_eq_true, if_false]
  by_cases hH : HIGH_CONFIDENCE_THRESHOLD ≤
      ((input.recallSummary.vendorMemories.find?
        (fun m => m.content.field = some "freightSku")).map
          (fun m => m.content.confidence)).getD 0.75
  · simp only [hH, if_true]
    exact ⟨_, rfl, rfl, rfl, rfl, rfl⟩
  simp only [hH, if_false]
  by_cases hM : MEDIUM_CONFIDENCE_THRESHOLD ≤
      ((input.recallSummary.vendorMemories.find?
        (fun m => m.content.field = some "freightSku")).map
          (fun m => m.content.confidence)).getD 0.75
  · simp only [hM, if_true]
    exact ⟨item, rfl, rfl, rfl, rfl, rfl⟩
  · simp only [hM, if_false]
    exact ⟨item, rfl, rfl, rfl, rfl, rfl⟩

theorem freightFold_items (input : ApplyInputContext) :
    ∀ (items : List InvoiceLineItem)
      (acc : List InvoiceLineItem × List ProposedCorrection × List AppliedMemoryRecord × ℚ),
      ∃ tl, (items.foldl (freightStep input) acc).1 = acc.1 ++ tl ∧
        List.Forall₂ (fun a b => b.id = a.id ∧ b.description = a.description ∧
          b.quantity = a.quantity ∧ b.unitPrice = a.unitPrice) items tl := by
  intro items
  induction items with
  | nil => intro acc; exact ⟨[], by simp, List.Forall₂.nil⟩
  | cons item rest ih =>
    intro acc
    obtain ⟨i2, hstep, hR⟩ := freightStep_items input acc item
    obtain ⟨tl, hfold, hall⟩ := ih (freightStep input acc item)
    refine ⟨i2 :: tl, ?_, List.Forall₂.cons hR hall⟩
    rw [List.foldl_cons, hfold, hstep, List.append_assoc]
    rfl

/-- C3 (amended): the caller's invoice after `applyMemoriesToContext`
keeps every top-level field unchanged except `lineItems` (the shared
array): each line item keeps its `id`, `description`, `quantity` and
`unitPrice` — only `sku` can differ from the caller's perspective. -/
theorem apply_frame_conditions (input : ApplyInputContext) :
    (callerInvoiceAfterApply input).id = input.invoice.id ∧
    (callerInvoiceAfterApply input).externalId = input.invoice.externalId ∧
    (callerInvoiceAfterApply input).customerName = input.invoice.customerName ∧
    (callerInvoiceAfterApply input).currency = input.invoice.currency ∧
    (callerInvoiceAfterApply input).totalAmount = input.invoice.totalAmount ∧
    (callerInvoiceAfterApply input).issuedAt = input.invoice.issuedAt ∧
    (callerInvoiceAfterApply input).dueAt = input.invoice.dueAt ∧
    (callerInvoiceAfterApply input).vendorName = input.invoice.vendorName ∧
    (callerInvoiceAfterApply input).invoiceNumber = input.invoice.invoiceNumber ∧
    (callerInvoiceAfterApply input).rawText = input.invoice.rawText ∧
    (callerInvoiceAfterApply input).serviceDate = input.invoice.serviceDate ∧
    (callerInvoiceAfterApply input).taxAmount = input.invoice.taxAmount ∧
    (callerInvoiceAfterApply input).grossAmount = input.invoice.grossAmount ∧
    (callerInvoiceAfterApply input).paymentTermsNormalized =
      input.invoice.paymentTermsNormalized ∧
    List.Forall₂ (fun a b => b.id = a.id ∧ b.description = a.description ∧
        b.quantity = a.quantity ∧ b.unitPrice = a.unitPrice)
      input.invoice.lineItems (callerInvoiceAfterApply input).lineItems := by
  refine ⟨rfl, rfl, rfl, rfl, rfl, rfl, rfl, rfl, rfl, rfl, rfl, rfl, rfl, rfl, ?_⟩
  show List.Forall₂ _ input.invoice.lineItems
    (applyMemoriesToContext input).normalizedInvoice.lineItems
  unfold applyMemoriesToContext
  simp only []
  rw [skontoBlock_lineItems]
  unfold freightBlock
  simp only []
  have hstage : (currencyBlock input (vatBlock input (serviceDateBlock input
      { invoice := input.invoice, corrections := [], applied := [],
        aggregate := 0 }))).invoice.lineItems = input.invoice.lineItems := by
    rw [currencyBlock_lineItems, vatBlock_lineItems, serviceDateBlock_lineItems]
  obtain ⟨tl, hfold, hall⟩ := freightFold_items input
    (currencyBlock input (vatBlock input (serviceDateBlock input
      { invoice := input.invoice, corrections := [], applied := [],
        aggregate := 0 }))).invoice.lineItems
    ([], (currencyBlock input (vatBlock input (serviceDateBlock input
      { invoice := input.invoice, corrections := [], applied := [],
        aggregate := 0 }))).corrections,
     (currencyBlock input (vatBlock input (serviceDateBlock input
      { invoice := input.invoice, corrections := [], applied := [],
        aggregate := 0 }))).applied,
     (currencyBlock input (vatBlock input (serviceDateBlock input
      { invoice := input.invoice, corrections := [], applied := [],
        aggregate := 0 }))).aggregate)
  rw [hfold]
  rw [hstage] at hall
  simpa using hall

/-! ### Helper lemmas for the learn update rule -/

theorem getMemoryById_saveMemory_self (repo : List Memory) (m : Memory) :
    getMemoryById (saveMemory repo m) m.id = some m := by
  induction repo with
  | nil => simp [saveMemory, getMemoryById, List.find?]
  | cons x rest ih =>
    unfold saveMemory
    by_cases hx : x.id = m.id
    · simp [hx, getMemoryById, List.find?]
    · simp only [hx, if_false]
      unfold getMemoryById at ih ⊢
      rw [List.find?_cons]
      have : (decide (x.id = m.id)) = false := by simpa using hx
      rw [this]
      exact ih

theorem id_of_getMemoryById (repo : List Memory) (mid : String) (m : Memory)
    (h : getMemoryById repo mid = some m) : m.id = mid := by
  have := List.find?_some h
  simpa using this

theorem fst_ite_pair {α β : Type} (P : Prop) [Decidable P] (a : α) (x y : β) :
    (if P then (a, x) else (a, y)).1 = a := by split <;> rfl

theorem learn_update_step (repo : List Memory) (signal : LearningSignal) (now : Int)
    (uuid : Nat → String) (n : Nat) (mid : String) (b : Bool) (existing : Memory)
    (hmid : signal.event.details.memoryId = some mid) (hne : mid ≠ "")
    (happ : signal.event.details.approved = some b)
    (hmem : getMemoryById repo mid = some existing) :
    ∃ mem, (learnFromSignal repo signal now uuid n).1 = some mem ∧
      mem.id = existing.id ∧
      storedConfidence mem = some (if b
        then min ((storedConfidence existing).getD 0.7 +
          0.05 * (signal.feedbackScore.getD 1)) 0.95
        else max ((storedConfidence existing).getD 0.7 -
          0.05 * (signal.feedbackScore.getD 1)) 0) ∧
      storedUsage mem = some ((storedUsage existing).getD 0 + 1) ∧
      (signal.event.details.resolutionStatus = none →
        signal.event.details.isDuplicate ≠ some true →
        (learnFromSignal repo signal now uuid n).2 = (saveMemory repo mem, n)) := by
  have hE : mid.isEmpty = false := by
    rw [Bool.eq_false_iff]
    intro hx
    exact hne ((String.isEmpty_iff mid).mp hx)
  unfold learnFromSignal
  simp only []
  rw [hmid, happ]
  simp only [hE, Option.isNone_some, Option.getD_some, Bool.or_false,
    Bool.false_eq_true, if_false]
  rw [hmem]
  simp only []
  refine ⟨_, fst_ite_pair _ _ _ _, rfl, ?_, ?_, ?_⟩
  · cases hex : existing.content with
    | obj c =>
      simp [storedConfidence, hex, Option.getD]
    | raw s =>
      simp [storedConfidence, hex]
  · cases hex : existing.content with
    | obj c =>
      simp [storedUsage, hex, Option.getD]
    | raw s =>
      simp [storedUsage, hex]
  · intro hres hdup
    rw [hres]
    have : (signal.event.details.isDuplicate = some true) = False := by
      simp [hdup]
    simp [this]

theorem min_shift_right (a b d : ℚ) (hd : 0 ≤ d) :
    min (min a b + d) b = min (a + d) b := by
  rw [← min_add_add_right, min_assoc, min_eq_right (le_add_of_nonneg_right hd)]

theorem learn_iter_confidence (signal : LearningSignal) (now : Int) (uuid : Nat → String)
    (mid : String)
    (hmid : signal.event.details.memoryId = some mid) (hne : mid ≠ "")
    (happ : signal.event.details.approved = some true)
    (hfs : signal.feedbackScore = none)
    (hres : signal.event.details.resolutionStatus = none)
    (hdup : signal.event.details.isDuplicate ≠ some true) :
    ∀ (k : Nat) (repo : List Memory) (n : Nat) (existing : Memory),
      getMemoryById repo mid = some existing →
      ((getMemoryById (learnIter signal now uuid (k + 1) (repo, n)).1 mid).bind
        storedConfidence) =
        some (min ((storedConfidence existing).getD 0.7 + ((k : ℚ) + 1) * 0.05) 0.95) := by
  intro k
  induction k with
  | zero =>
    intro repo n existing hmem
    obtain ⟨mem, h1, hid, hconf, _, hpair⟩ :=
      learn_update_step repo signal now uuid n mid true existing hmid hne happ hmem
    have hrepo : (learnFromSignal repo signal now uuid n).2 = (saveMemory repo mem, n) :=
      hpair hres hdup
    show ((getMemoryById (learnIter signal now uuid 0
        ((learnFromSignal repo signal now uuid n).2)).1 mid).bind storedConfidence) = _
    rw [hrepo]
    unfold learnIter
    have hmemid : mem.id = mid := by
      rw [hid]; exact id_of_getMemoryById repo mid existing hmem
    have hfind : getMemoryById (saveMemory repo mem) mid = some mem := by
      rw [← hmemid]; exact getMemoryById_saveMemory_self repo mem
    rw [hfind]
    show storedConfidence mem = _
    rw [hconf, hfs]
    norm_num
  | succ k ih =>
    intro repo n existing hmem
    obtain ⟨mem, h1, hid, hconf, _, hpair⟩ :=
      learn_update_step repo signal now uuid n mid true existing hmid hne happ hmem
    have hrepo : (learnFromSignal repo signal now uuid n).2 = (saveMemory repo mem, n) :=
      hpair hres hdup
    have hmemid : mem.id = mid := by
      rw [hid]; exact id_of_getMemoryById repo mid existing hmem
    have hfind : getMemoryById (saveMemory repo mem) mid = some mem := by
      rw [← hmemid]; exact getMemoryById_saveMemory_self repo mem
    show ((getMemoryById (learnIter signal now uuid (k + 1)
        ((learnFromSignal repo signal now uuid n).2)).1 mid).bind storedConfidence) = _
    rw [hrepo]
    rw [ih (saveMemory repo mem) n mem hfind]
    have hc : (storedConfidence mem).getD 0.7 =
        min ((storedConfidence existing).getD 0.7 + 0.05 * 1) 0.95 := by
      rw [hconf, hfs]
      norm_num
    rw [hc]
    rw [show (0.05 : ℚ) * 1 = 0.05 by norm_num]
    rw [min_shift_right _ _ _ (by positivity)]
    congr 1
    push_cast
    ring

/-- C4: in `learnFromSignal`'s existing-memory path the stored
confidence moves by `delta = 0.05 x feedbackScore` (default 1): on
approval to `min(confidence + delta, 0.95)`, on rejection to
`max(confidence - delta, 0)`, and `usageCount` grows by exactly 1;
consequently, iterating approval with the default feedback score drives
the stored confidence to `min(confidence + k·0.05, 0.95)`, which never
exceeds 0.95 and reaches exactly 0.95 for every `k ≥ 19` when the
starting confidence is non-negative. -/
theorem learn_confidence_update_and_convergence :
    (∀ (repo : List Memory) (signal : LearningSignal) (now : Int) (uuid : Nat → String)
       (n : Nat) (mid : String) (b : Bool) (existing : Memory),
       signal.event.details.memoryId = some mid → mid ≠ "" →
       signal.event.details.approved = some b →
       getMemoryById repo mid = some existing →
       ∃ mem, (learnFromSignal repo signal now uuid n).1 = some mem ∧
         storedConfidence mem = some (if b
           then min ((storedConfidence existing).getD 0.7 +
             0.05 * (signal.feedbackScore.getD 1)) 0.95
           else max ((storedConfidence existing).getD 0.7 -
             0.05 * (signal.feedbackScore.getD 1)) 0) ∧
         storedUsage mem = some ((storedUsage existing).getD 0 + 1)) ∧
    (∀ (signal : LearningSignal) (now : Int) (uuid : Nat → String) (mid : String),
       signal.event.details.memoryId = some mid → mid ≠ "" →
       signal.event.details.approved = some true →
       signal.feedbackScore = none →
       signal.event.details.resolutionStatus = none →
       signal.event.details.isDuplicate ≠ some true →
       ∀ (k : Nat) (repo : List Memory) (n : Nat) (existing : Memory),
         getMemoryById repo mid = some existing →
         ((getMemoryById (learnIter signal now uuid (k + 1) (repo, n)).1 mid).bind
             storedConfidence) =
           some (min ((storedConfidence existing).getD 0.7 + ((k : ℚ) + 1) * 0.05) 0.95) ∧
         min ((storedConfidence existing).getD 0.7 + ((k : ℚ) + 1) * 0.05) 0.95 ≤ 0.95 ∧
         (0 ≤ (storedConfidence existing).getD 0.7 → 19 ≤ k + 1 →
           min ((storedConfidence existing).getD 0.7 + ((k : ℚ) + 1) * 0.05) 0.95 = 0.95)) := by
  constructor
  · intro repo signal now uuid n mid b existing hmid hne happ hmem
    obtain ⟨mem, h1, _, h3, h4, _⟩ :=
      learn_update_step repo signal now uuid n mid b existing hmid hne happ hmem
    exact ⟨mem, h1, h3, h4⟩
  · intro signal now uuid mid hmid hne happ hfs hres hdup k repo n existing hmem
    refine ⟨learn_iter_confidence signal now uuid mid hmid hne happ hfs hres hdup
      k repo n existing hmem, min_le_right _ _, ?_⟩
    intro hc0 hk
    apply min_eq_right
    have hk' : (19 : ℚ) ≤ (k : ℚ) + 1 := by exact_mod_cast hk
    nlinarith

/-- Witness for C4: one approval step on `serviceMem` (0.75 → 0.8,
usage 1 → 2), and 19 iterated approvals reaching exactly 0.95. -/
theorem learn_confidence_update_witness :
    (∃ mem, (learnFromSignal [serviceMem] signalApprove 0 uuidT 0).1 = some mem ∧
      storedConfidence mem = some (if true
        then min ((storedConfidence serviceMem).getD 0.7 +
          0.05 * (signalApprove.feedbackScore.getD 1)) 0.95
        else max ((storedConfidence serviceMem).getD 0.7 -
          0.05 * (signalApprove.feedbackScore.getD 1)) 0) ∧
      storedUsage mem = some ((storedUsage serviceMem).getD 0 + 1)) ∧
    (((getMemoryById (learnIter signalApprove 0 uuidT (18 + 1) ([serviceMem], 0)).1
        "m1").bind storedConfidence) =
      some (min ((storedConfidence serviceMem).getD 0.7 + ((18 : ℚ) + 1) * 0.05) 0.95) ∧
     min ((storedConfidence serviceMem).getD 0.7 + ((18 : ℚ) + 1) * 0.05) 0.95 ≤ 0.95 ∧
     (0 ≤ (storedConfidence serviceMem).getD 0.7 → 19 ≤ 18 + 1 →
       min ((storedConfidence serviceMem).getD 0.7 + ((18 : ℚ) + 1) * 0.05) 0.95 = 0.95)) :=
  ⟨learn_confidence_update_and_convergence.1 [serviceMem] signalApprove 0 uuidT 0 "m1"
      true serviceMem (by decide) (by decide) (by decide) (by decide),
   learn_confidence_update_and_convergence.2 signalApprove 0 uuidT "m1"
      (by decide) (by decide) (by decide) (by decide) (by decide) (by decide)
      18 [serviceMem] 0 serviceMem (by decide)⟩

theorem mem_saveMemory (repo : List Memory) (m x : Memory)
    (h : x ∈ saveMemory repo m) : x = m ∨ x ∈ repo := by
  induction repo with
  | nil => simpa [saveMemory] using h
  | cons y rest ih =>
    unfold saveMemory at h
    by_cases hy : y.id = m.id
    · simp only [hy, if_true, List.mem_cons] at h
      rcases h with h | h
      · exact Or.inl h
      · exact Or.inr (List.mem_cons_of_mem _ h)
    · simp only [hy, if_false, List.mem_cons] at h
      rcases h with h | h
      · exact Or.inr (by simp [h])
      · rcases ih h with h' | h'
        · exact Or.inl h'
        · exact Or.inr (List.mem_cons_of_mem _ h')

/-- C5 (amended): the second, independent resolution-category memory
(fresh id, confidence 0.8 if approved else 0.5, usageCount 1,
`metadata.isDuplicate` boolean) is created only in the existing-memory
path; in the create path no resolution-category memory is added. -/
theorem resolution_memory_only_in_update_path
    (repo : List Memory) (signal : LearningSignal) (now : Int) (uuid : Nat → String)
    (n : Nat) (mid : String) (b : Bool)
    (hmid : signal.event.details.memoryId = some mid) (hne : mid ≠ "")
    (happ : signal.event.details.approved = some b)
    (hflag : signal.event.details.resolutionStatus.isSome = true ∨
      signal.event.details.isDuplicate = some true) :
    (getMemoryById repo mid = none →
      ∀ m ∈ (learnFromSignal repo signal now uuid n).2.1,
        storedCategory m = some .resolution → m ∈ repo) ∧
    (∀ existing, getMemoryById repo mid = some existing →
      getMemoryById (learnFromSignal repo signal now uuid n).2.1 (uuid n) =
        some { id := uuid n, kind := .long_term,
               content := .obj
                 { category := some .resolution,
                   vendorName := signal.event.details.vendorName,
                   invoiceNumber := signal.event.details.invoiceNumber,
                   invoiceDate := signal.event.details.invoiceDate,
                   resolutionStatus :=
                     (match signal.event.details.resolutionStatus with
                      | some r => some r
                      | none => if signal.event.details.isDuplicate = some true
                          then some ResolutionStatus.approved else none),
                   confidence := some (if b then 0.8 else 0.5),
                   usageCount := some 1,
                   metadata :=
                     some { isDuplicate := some (signal.event.details.isDuplicate = some true) } },
               createdAt := now, updatedAt := now,
               source := some "learn:resolution" }) := by
  have hE : mid.isEmpty = false := by
    rw [Bool.eq_false_iff]
    intro hx
    exact hne ((String.isEmpty_iff mid).mp hx)
  constructor
  · intro hnone m hm hcat
    unfold learnFromSignal at hm
    simp only [] at hm
    rw [hmid, happ] at hm
    simp only [hE, Option.isNone_some, Option.getD_some, Bool.or_false,
      Bool.false_eq_true, if_false] at hm
    rw [hnone] at hm
    simp only [] at hm
    rcases mem_saveMemory _ _ _ hm with rfl | hmem'
    · exfalso
      unfold storedCategory at hcat
      simp only [Option.some_inj] at hcat
      repeat' split at hcat
      all_goals simp at hcat
    · exact hmem'
  · intro existing hmem
    unfold learnFromSignal
    simp only []
    rw [hmid, happ]
    simp only [hE, Option.isNone_some, Option.getD_some, Bool.or_false,
      Bool.false_eq_true, if_false]
    rw [hmem]
    simp only []
    have hcond : (signal.event.details.resolutionStatus.isSome ||
        decide (signal.event.details.isDuplicate = some true)) = true := by
      rcases hflag with h | h
      · simp [h]
      · simp [h]
    rw [hcond]
    simp only [if_true]
    exact getMemoryById_saveMemory_self _ _

/-- Witness for C5's amended theorem at a concrete update-path input:
the resolution memory is stored under the fresh id. -/
theorem resolution_memory_update_path_witness :
    getMemoryById (learnFromSignal [serviceMem]
        { event :=
            { id := "e3", type := "learn", timestamp := 0,
              details :=
                { memoryId := some "m1", approved := some true,
                  vendorName := some "Supplier GmbH",
                  invoiceNumber := some "S-1", invoiceDate := some "@0",
                  resolutionStatus := some .approved,
                  isDuplicate := some false } }
          feedbackScore := none } 0 uuidT 0).2.1 (uuidT 0) =
      some { id := uuidT 0, kind := .long_term,
             content := .obj
               { category := some .resolution,
                 vendorName := some "Supplier GmbH",
                 invoiceNumber := some "S-1",
                 invoiceDate := some "@0",
                 resolutionStatus := some ResolutionStatus.approved,
                 confidence := some 0.8,
                 usageCount := some 1,
                 metadata := some { isDuplicate := some false } },
             createdAt := 0, updatedAt := 0,
             source := some "learn:resolution" } := by
  have h := (resolution_memory_only_in_update_path [serviceMem]
    { event :=
        { id := "e3", type := "learn", timestamp := 0,
          details :=
            { memoryId := some "m1", approved := some true,
              vendorName := some "Supplier GmbH",
              invoiceNumber := some "S-1", invoiceDate := some "@0",
              resolutionStatus := some .approved,
              isDuplicate := some false } }
      feedbackScore := none } 0 uuidT 0 "m1" true (by decide) (by decide)
    (by decide) (Or.inl (by decide))).2 serviceMem (by decide)
  rw [h]
  decide

theorem processCorrectionFeedback_updates (invoice : NormalizedInvoice)
    (dup : Bool) (fb : HumanFeedbackInput) (now : Int) (uuid : Nat → String)
    (state : List Memory × Nat × List MemoryUpdate) (c : ProposedCorrection) :
    ∀ u ∈ (processCorrectionFeedback invoice dup fb now uuid state c).2.2,
      u ∈ state.2.2 ∨
      ((fb.approvedCorrections.contains c.field = true ∨
          fb.rejectedCorrections.contains c.field = true) ∧
        u.action = (if fb.approvedCorrections.contains c.field then
          MemoryUpdateAction.reinforce else MemoryUpdateAction.decay)) := by
  obtain ⟨repo, n, updates⟩ := state
  intro u hu
  unfold processCorrectionFeedback at hu
  by_cases hskip : (!fb.approvedCorrections.contains c.field &&
      !fb.rejectedCorrections.contains c.field) = true
  · simp only [hskip, if_true] at hu
    exact Or.inl hu
  · simp only [hskip, Bool.false_eq_true, if_false] at hu
    have hor : fb.approvedCorrections.contains c.field = true ∨
        fb.rejectedCorrections.contains c.field = true := by
      by_cases ha : fb.approvedCorrections.contains c.field = true
      · exact Or.inl ha
      · by_cases hr : fb.rejectedCorrections.contains c.field = true
        · exact Or.inr hr
        · have ha2 : fb.approvedCorrections.contains c.field = false := by
            cases hx : fb.approvedCorrections.contains c.field
            · rfl
            · exact absurd hx ha
          have hr2 : fb.rejectedCorrections.contains c.field = false := by
            cases hx : fb.rejectedCorrections.contains c.field
            · rfl
            · exact absurd hx hr
          exact absurd (by rw [ha2, hr2]; rfl) hskip
    rcases hcm : c.memoryId with _ | m
    all_goals simp only [hcm] at hu
    all_goals repeat' split at hu
    all_goals
      first
        | exact Or.inl hu
        | (rcases List.mem_append.mp hu with h | h
           · exact Or.inl h
           · right
             simp only [List.mem_singleton] at h
             subst h
             exact ⟨hor, by simp_all⟩)

theorem fold_feedback_updates (invoice : NormalizedInvoice) (dup : Bool)
    (fb : HumanFeedbackInput) (now : Int) (uuid : Nat → String) :
    ∀ (cs : List ProposedCorrection) (state : List Memory × Nat × List MemoryUpdate),
      ∀ u ∈ (cs.foldl (processCorrectionFeedback invoice dup fb now uuid) state).2.2,
        u ∈ state.2.2 ∨
        ∃ c ∈ cs, (fb.approvedCorrections.contains c.field = true ∨
            fb.rejectedCorrections.contains c.field = true) ∧
          u.action = (if fb.approvedCorrections.contains c.field then
            MemoryUpdateAction.reinforce else MemoryUpdateAction.decay) := by
  intro cs
  induction cs with
  | nil => intro state u hu; exact Or.inl hu
  | cons c rest ih =>
    intro state u hu
    rw [List.foldl_cons] at hu
    rcases ih (processCorrectionFeedback invoice dup fb now uuid state c) u hu with h | h
    · rcases processCorrectionFeedback_updates invoice dup fb now uuid state c u h with h' | h'
      · exact Or.inl h'
      · exact Or.inr ⟨c, List.mem_cons_self c rest, h'⟩
    · obtain ⟨c', hc', hrest⟩ := h
      exact Or.inr ⟨c', List.mem_cons_of_mem c hc', hrest⟩

/-- C10 (amended): every `memoryUpdates` entry from human feedback
carries action `reinforce` exactly when the matching correction's field
was approved, and `decay` exactly when it was rejected and not approved
(the orchestrator lets approval win when a field appears in both
lists); the action value `create` is never emitted, even when
`learnFromSignal` created a brand-new memory under a generated id. -/
theorem memory_update_actions (repo : List Memory) (invoice : NormalizedInvoice)
    (rawText : String) (fb : HumanFeedbackInput) (now : Int) (uuid : Nat → String) :
    ∀ u ∈ (processInvoiceWithMemory repo invoice rawText (some fb) now uuid).1.memoryUpdates,
      u.action ≠ MemoryUpdateAction.create ∧
      ∃ c ∈ (processInvoiceWithMemory repo invoice rawText (some fb) now uuid).1.proposedCorrections,
        (fb.approvedCorrections.contains c.field = true ∨
          fb.rejectedCorrections.contains c.field = true) ∧
        u.action = (if fb.approvedCorrections.contains c.field then
          MemoryUpdateAction.reinforce else MemoryUpdateAction.decay) := by
  intro u hu
  unfold processInvoiceWithMemory at hu ⊢
  simp only [] at hu ⊢
  rcases fold_feedback_updates invoice _ fb now uuid _ _ u hu with h | h
  · simp at h
  · obtain ⟨c, hc, hor, hact⟩ := h
    refine ⟨?_, ⟨c, hc, hor, hact⟩⟩
    rw [hact]
    by_cases ha : fb.approvedCorrections.contains c.field = true
    · rw [if_pos ha]; simp
    · rw [if_neg ha]; simp

/-- Witness for C10's amended theorem: the rejection-feedback run yields
a single `decay` entry for the serviceDate correction. -/
theorem memory_update_actions_witness :
    ({ memoryId := "m1", previousConfidence := 0.75, newConfidence := 0.8,
       usageCount := 2, action := .decay } : MemoryUpdate).action ≠
        MemoryUpdateAction.create ∧
    ∃ c ∈ (processInvoiceWithMemory [serviceMem] invoiceB "Rechnung"
        (some feedbackReject) 0 uuidT).1.proposedCorrections,
      (feedbackReject.approvedCorrections.contains c.field = true ∨
        feedbackReject.rejectedCorrections.contains c.field = true) ∧
      ({ memoryId := "m1", previousConfidence := 0.75, newConfidence := 0.8,
         usageCount := 2, action := .decay } : MemoryUpdate).action =
        (if feedbackReject.approvedCorrections.contains c.field then
          MemoryUpdateAction.reinforce else MemoryUpdateAction.decay) :=
  memory_update_actions [serviceMem] invoiceB "Rechnung" feedbackReject 0 uuidT
    { memoryId := "m1", previousConfidence := 0.75, newConfidence := 0.8,
      usageCount := 2, action := .decay } (by decide)

/-! ### Helper lemmas for the recall theorems -/

theorem recall_components (repo : List Memory) (query : RecallQuery) :
    (recallMemories repo query).allMemories = scoredMemories repo query ∧
    (recallMemories repo query).vendorMemories =
      filterByCategory (scoredMemories repo query) .vendor ∧
    (recallMemories repo query).correctionMemories =
      filterByCategory (scoredMemories repo query) .correction ∧
    (recallMemories repo query).resolutionMemories =
      filterByCategory (scoredMemories repo query) .resolution := by
  unfold recallMemories
  simp only []
  rcases (filterByCategory (scoredMemories repo query) .resolution).filter
      (isDuplicateCandidate query) with _ | ⟨b, r⟩
  · exact ⟨rfl, rfl, rfl, rfl⟩
  · exact ⟨rfl, rfl, rfl, rfl⟩

theorem recall_duplicate_fields (repo : List Memory) (query : RecallQuery) :
    ((filterByCategory (scoredMemories repo query) .resolution).filter
        (isDuplicateCandidate query) = [] →
      (recallMemories repo query).duplicateDetected = false) ∧
    (∀ best rest,
      (filterByCategory (scoredMemories repo query) .resolution).filter
          (isDuplicateCandidate query) = best :: rest →
      (recallMemories repo query).duplicateDetected = true ∧
      (recallMemories repo query).duplicateScore = best.score ∧
      (recallMemories repo query).duplicateReason = some duplicateReasonText) := by
  constructor
  · intro h
    unfold recallMemories
    simp only []
    rw [h]
  · intro best rest h
    unfold recallMemories
    simp only []
    rw [h]
    exact ⟨rfl, rfl, rfl⟩

theorem scored_mem_score (repo : List Memory) (query : RecallQuery)
    (sm : ScoredLearnedMemory) (h : sm ∈ scoredMemories repo query) :
    sm.score =
      scoreMemory sm.content query.vendorName query.invoiceNumber query.invoiceDate := by
  unfold scoredMemories at h
  simp only [List.mem_filterMap] at h
  obtain ⟨memory, _, hmap⟩ := h
  rcases hparse : parseLearnedContent memory with _ | content
  · rw [hparse] at hmap; simp at hmap
  · rw [hparse] at hmap
    simp only [Option.map_some', Option.some_inj] at hmap
    rw [← hmap]

theorem scoreMemory_eq_min (content : LearnedMemoryContent)
    (vendorName invoiceNumber : String) (invoiceDate : Int) :
    scoreMemory content vendorName invoiceNumber invoiceDate =
      min (content.confidence +
        (if (match content.vendorName with
             | some v => !v.isEmpty && (lowerStr v = lowerStr vendorName : Bool)
             | none => false) then (0.05 : ℚ) else 0) +
        (if (match content.invoiceNumber with
             | some n => !n.isEmpty && (n = invoiceNumber : Bool)
             | none => false) then (0.05 : ℚ) else 0) +
        (if (match content.invoiceDate with
             | some d =>
               !d.isEmpty &&
               (match parseDateMs d with
                | some t =>
                  decide ((|(t : ℚ) - (invoiceDate : ℚ)| / (1000 * 60 * 60 * 24)) ≤ 2)
                | none => false)
             | none => false) then (0.05 : ℚ) else 0)) 1 := by
  unfold scoreMemory
  split_ifs <;> (congr 1 <;> ring)

/-- C8: every recalled memory that parses as learned content is scored
as the stored confidence plus +0.05 for a case-insensitive vendor-name
match, +0.05 for an exact invoice-number match and +0.05 for a stored
invoice date within 2 days of the query date, clamped from above at 1;
under the data-model invariant `confidence ∈ [0,1]` (here only `0 ≤
confidence` is needed) every score in the RecallSummary — the buckets
are sub-multisets of `allMemories` — lies in `[0, 1]`. -/
theorem recall_score_formula (repo : List Memory) (query : RecallQuery) :
    (∀ sm ∈ (recallMemories repo query).allMemories,
      sm.score = min (sm.content.confidence +
        (if (match sm.content.vendorName with
             | some v => !v.isEmpty && (lowerStr v = lowerStr query.vendorName : Bool)
             | none => false) then (0.05 : ℚ) else 0) +
        (if (match sm.content.invoiceNumber with
             | some n => !n.isEmpty && (n = query.invoiceNumber : Bool)
             | none => false) then (0.05 : ℚ) else 0) +
        (if (match sm.content.invoiceDate with
             | some d =>
               !d.isEmpty &&
               (match parseDateMs d with
                | some t =>
                  decide ((|(t : ℚ) - (query.invoiceDate : ℚ)| / (1000 * 60 * 60 * 24)) ≤ 2)
                | none => false)
             | none => false) then (0.05 : ℚ) else 0)) 1 ∧
      sm.score ≤ 1) ∧
    ((∀ sm ∈ (recallMemories repo query).allMemories, 0 ≤ sm.content.confidence) →
      ∀ sm ∈ (recallMemories repo query).allMemories, 0 ≤ sm.score ∧ sm.score ≤ 1) ∧
    (∀ sm : ScoredLearnedMemory,
      (sm ∈ (recallMemories repo query).vendorMemories ∨
       sm ∈ (recallMemories repo query).correctionMemories ∨
       sm ∈ (recallMemories repo query).resolutionMemories) →
      sm ∈ (recallMemories repo query).allMemories) := by
  obtain ⟨hall, hv, hc, hr⟩ := recall_components repo query
  have hscore : ∀ sm ∈ (recallMemories repo query).allMemories,
      sm.score = min (sm.content.confidence +
        (if (match sm.content.vendorName with
             | some v => !v.isEmpty && (lowerStr v = lowerStr query.vendorName : Bool)
             | none => false) then (0.05 : ℚ) else 0) +
        (if (match sm.content.invoiceNumber with
             | some n => !n.isEmpty && (n = query.invoiceNumber : Bool)
             | none => false) then (0.05 : ℚ) else 0) +
        (if (match sm.content.invoiceDate with
             | some d =>
               !d.isEmpty &&
               (match parseDateMs d with
                | some t =>
                  decide ((|(t : ℚ) - (query.invoiceDate : ℚ)| / (1000 * 60 * 60 * 24)) ≤ 2)
                | none => false)
             | none => false) then (0.05 : ℚ) else 0)) 1 := by
    intro sm h
    rw [hall] at h
    rw [scored_mem_score repo query sm h, scoreMemory_eq_min]
  refine ⟨?_, ?_, ?_⟩
  · intro sm h
    refine ⟨hscore sm h, ?_⟩
    rw [hscore sm h]
    exact min_le_right _ _
  · intro hpos sm h
    constructor
    · rw [hscore sm h]
      refine le_min ?_ (by norm_num)
      have hc0 := hpos sm h
      refine add_nonneg (add_nonneg (add_nonneg hc0 ?_) ?_) ?_ <;>
        (split <;> norm_num)
    · rw [hscore sm h]
      exact min_le_right _ _
  · intro sm hor
    rw [hall]
    rcases hor with h | h | h
    · rw [hv] at h
      unfold filterByCategory at h
      rw [List.mem_insertionSort] at h
      exact (List.mem_filter.mp h).1
    · rw [hc] at h
      unfold filterByCategory at h
      rw [List.mem_insertionSort] at h
      exact (List.mem_filter.mp h).1
    · rw [hr] at h
      unfold filterByCategory at h
      rw [List.mem_insertionSort] at h
      exact (List.mem_filter.mp h).1

/-- Witness for C8 at the concrete one-memory store: the resolution
memory scores 0.8 + 3 x 0.05 = 0.95 ∈ [0,1]. -/
theorem recall_score_formula_witness :
    (scoredResolution.score = min (scoredResolution.content.confidence +
      (if (match scoredResolution.content.vendorName with
           | some v => !v.isEmpty && (lowerStr v = lowerStr queryDup.vendorName : Bool)
           | none => false) then (0.05 : ℚ) else 0) +
      (if (match scoredResolution.content.invoiceNumber with
           | some n => !n.isEmpty && (n = queryDup.invoiceNumber : Bool)
           | none => false) then (0.05 : ℚ) else 0) +
      (if (match scoredResolution.content.invoiceDate with
           | some d =>
             !d.isEmpty &&
             (match parseDateMs d with
              | some t =>
                decide ((|(t : ℚ) - (queryDup.invoiceDate : ℚ)| / (1000 * 60 * 60 * 24)) ≤ 2)
              | none => false)
           | none => false) then (0.05 : ℚ) else 0)) 1 ∧
     scoredResolution.score ≤ 1) ∧
    (0 ≤ scoredResolution.score ∧ scoredResolution.score ≤ 1) ∧
    scoredResolution ∈ (recallMemories [resolutionMem] queryDup).allMemories :=
  ⟨(recall_score_formula [resolutionMem] queryDup).1 scoredResolution (by decide),
   (recall_score_formula [resolutionMem] queryDup).2.1 (by decide) scoredResolution (by decide),
   (recall_score_formula [resolutionMem] queryDup).2.2 scoredResolution
     (Or.inr (Or.inr (by decide)))⟩

theorem isDuplicateCandidate_iff (query : RecallQuery) (sm : ScoredLearnedMemory) :
    isDuplicateCandidate query sm = true ↔
      ((∃ v, sm.content.vendorName = some v ∧ lowerStr v = lowerStr query.vendorName) ∧
       sm.content.invoiceNumber = some query.invoiceNumber ∧
       (∃ d, sm.content.invoiceDate = some d ∧ d ≠ "")) := by
  unfold isDuplicateCandidate
  rw [Bool.and_eq_true, Bool.and_eq_true]
  constructor
  · rintro ⟨⟨h1, h2⟩, h3⟩
    refine ⟨?_, by simpa using h2, ?_⟩
    · rcases hv : sm.content.vendorName with _ | v
      · rw [hv] at h1; simp at h1
      · rw [hv] at h1
        exact ⟨v, rfl, by simpa using h1⟩
    · rcases hd : sm.content.invoiceDate with _ | d
      · rw [hd] at h3; simp at h3
      · rw [hd] at h3
        refine ⟨d, rfl, fun hde => ?_⟩
        subst hde
        simp only [Bool.not_eq_true'] at h3
        exact absurd h3 (by decide)
  · rintro ⟨⟨v, hv, hlv⟩, hn, ⟨d, hd, hde⟩⟩
    refine ⟨⟨?_, by simpa using hn⟩, ?_⟩
    · rw [hv]
      simpa using hlv
    · rw [hd]
      have hdf : d.isEmpty = false := by
        rw [Bool.eq_false_iff]
        intro hx
        exact hde ((String.isEmpty_iff d).mp hx)
      simp [hdf]

theorem mem_duplicateCandidates_iff (scored : List ScoredLearnedMemory)
    (query : RecallQuery) (sm : ScoredLearnedMemory) :
    sm ∈ (filterByCategory scored .resolution).filter (isDuplicateCandidate query) ↔
      (sm ∈ scored ∧ sm.content.category = .resolution ∧
        isDuplicateCandidate query sm = true) := by
  rw [List.mem_filter]
  unfold filterByCategory
  rw [List.mem_insertionSort, List.mem_filter]
  constructor
  · rintro ⟨⟨hs, hcat⟩, hdup⟩
    exact ⟨hs, by simpa using hcat, hdup⟩
  · rintro ⟨hs, hcat, hdup⟩
    exact ⟨⟨hs, by simpa using hcat⟩, hdup⟩

/-- C7: `recallMemories` reports `duplicateDetected = true` exactly when
some scored resolution-category memory matches the query vendor
case-insensitively, matches the invoice number exactly, and carries a
non-empty stored invoice date; in that case `duplicateScore` is the
highest score among such memories and `duplicateReason` is the fixed
string; otherwise `duplicateDetected = false`. -/
theorem recall_duplicate_detection (repo : List Memory) (query : RecallQuery) :
    ((recallMemories repo query).duplicateDetected = true ↔
      ∃ sm ∈ (recallMemories repo query).allMemories,
        sm.content.category = .resolution ∧
        (∃ v, sm.content.vendorName = some v ∧ lowerStr v = lowerStr query.vendorName) ∧
        sm.content.invoiceNumber = some query.invoiceNumber ∧
        (∃ d, sm.content.invoiceDate = some d ∧ d ≠ "")) ∧
    ((recallMemories repo query).duplicateDetected = true →
      (recallMemories repo query).duplicateReason = some duplicateReasonText ∧
      (∃ sm ∈ (recallMemories repo query).allMemories,
        (sm.content.category = .resolution ∧
         (∃ v, sm.content.vendorName = some v ∧ lowerStr v = lowerStr query.vendorName) ∧
         sm.content.invoiceNumber = some query.invoiceNumber ∧
         (∃ d, sm.content.invoiceDate = some d ∧ d ≠ "")) ∧
        sm.score = (recallMemories repo query).duplicateScore) ∧
      (∀ sm ∈ (recallMemories repo query).allMemories,
        (sm.content.category = .resolution ∧
         (∃ v, sm.content.vendorName = some v ∧ lowerStr v = lowerStr query.vendorName) ∧
         sm.content.invoiceNumber = some query.invoiceNumber ∧
         (∃ d, sm.content.invoiceDate = some d ∧ d ≠ "")) →
        sm.score ≤ (recallMemories repo query).duplicateScore)) := by
  obtain ⟨hall, _, _, _⟩ := recall_components repo query
  have hsorted : List.Pairwise scoreGE
      ((filterByCategory (scoredMemories repo query) .resolution).filter
        (isDuplicateCandidate query)) :=
    List.Pairwise.filter _ (List.sorted_insertionSort scoreGE _)
  rcases hcand : (filterByCategory (scoredMemories repo query) .resolution).filter
      (isDuplicateCandidate query) with _ | ⟨best, rest⟩
  · have hdet := (recall_duplicate_fields repo query).1 hcand
    constructor
    · rw [hdet]
      constructor
      · intro h; exact absurd h (by simp)
      · rintro ⟨sm, hsm, hcat, hrest⟩
        exfalso
        have hmem : sm ∈ (filterByCategory (scoredMemories repo query) .resolution).filter
            (isDuplicateCandidate query) := by
          rw [mem_duplicateCandidates_iff]
          exact ⟨by rwa [hall] at hsm, hcat, (isDuplicateCandidate_iff query sm).mpr hrest⟩
        rw [hcand] at hmem
        simp at hmem
    · intro h
      rw [hdet] at h
      simp at h
  · obtain ⟨hdet, hscoreq, hreason⟩ := (recall_duplicate_fields repo query).2 best rest hcand
    have hbestmem : best ∈ (filterByCategory (scoredMemories repo query) .resolution).filter
        (isDuplicateCandidate query) := by
      rw [hcand]; exact List.mem_cons_self best rest
    obtain ⟨hbs, hbcat, hbdup⟩ := (mem_duplicateCandidates_iff _ query best).mp hbestmem
    obtain ⟨hbv, hbn, hbd⟩ := (isDuplicateCandidate_iff query best).mp hbdup
    constructor
    · rw [hdet]
      constructor
      · intro _
        exact ⟨best, by rwa [hall], hbcat, hbv, hbn, hbd⟩
      · intro _; rfl
    · intro _
      refine ⟨hreason, ⟨best, by rwa [hall], ⟨hbcat, hbv, hbn, hbd⟩, by rw [hscoreq]⟩, ?_⟩
      intro sm hsm hprops
      have hmem : sm ∈ (filterByCategory (scoredMemories repo query) .resolution).filter
          (isDuplicateCandidate query) := by
        rw [mem_duplicateCandidates_iff]
        exact ⟨by rwa [hall] at hsm, hprops.1,
          (isDuplicateCandidate_iff query sm).mpr hprops.2⟩
      rw [hcand] at hmem
      rw [hscoreq]
      rcases List.mem_cons.mp hmem with rfl | hmem'
      · exact le_refl _
      · rw [hcand] at hsorted
        exact (List.pairwise_cons.mp hsorted).1 sm hmem'

/-- Witness for C7: the one-resolution-memory store triggers duplicate
detection with score 0.95 and the fixed reason string. -/
theorem recall_duplicate_detection_witness :
    (recallMemories [resolutionMem] queryDup).duplicateReason = some duplicateReasonText ∧
    (∃ sm ∈ (recallMemories [resolutionMem] queryDup).allMemories,
      (sm.content.category = .resolution ∧
       (∃ v, sm.content.vendorName = some v ∧ lowerStr v = lowerStr queryDup.vendorName) ∧
       sm.content.invoiceNumber = some queryDup.invoiceNumber ∧
       (∃ d, sm.content.invoiceDate = some d ∧ d ≠ "")) ∧
      sm.score = (recallMemories [resolutionMem] queryDup).duplicateScore) ∧
    (∀ sm ∈ (recallMemories [resolutionMem] queryDup).allMemories,
      (sm.content.category = .resolution ∧
       (∃ v, sm.content.vendorName = some v ∧ lowerStr v = lowerStr queryDup.vendorName) ∧
       sm.content.invoiceNumber = some queryDup.invoiceNumber ∧
       (∃ d, sm.content.invoiceDate = some d ∧ d ≠ "")) →
      sm.score ≤ (recallMemories [resolutionMem] queryDup).duplicateScore) :=
  (recall_duplicate_detection [resolutionMem] queryDup).2 (by decide)
